import Mathlib

/-!
# Verification of the `pino-file-transport` log-rotation engine

This development gives a shallow embedding, in Lean 4, of the core logic of the
`pino-file-transport` repository (a Pino file transport with size/period log
rotation, archive and retention workers, and two filesystem-based locking
primitives), and proves, or refutes, a list of claims about it.

Modelling conventions, used throughout:

* JavaScript `Date` values are modelled as integer milliseconds since the Unix
  epoch, on the proleptic Gregorian calendar.  The source mixes
  `toISOString()` (UTC fields) with `getHours()`/`getDate()` (local fields);
  we assume the process runs with local time = UTC, so the two views agree.
  Expanded-year ISO formatting (years outside 0..9999) is not modelled; all
  theorems about "now" assume a wall clock between year 0 and year 9999.
* JavaScript numbers are modelled as `Rat` where fractional values can occur
  (sizes, adaptive intervals), and as `Int` where the source only ever holds
  integers (timestamps).  The float constant `0.98` is modelled as the exact
  rational `49/50`; no theorem below probes inputs close enough to the
  threshold for the `2e-17` difference between the two to matter.
* The filesystem is modelled as an association list from full path to size,
  plus explicit lists of directory entries where workers scan directories.
  I/O always succeeds in the model (fault injection is out of scope); `stat`
  on a missing file is modelled as size 0, matching `getFileSizeSync`'s
  `catch { return 0 }`.
* `SonicBoom` is modelled as a synchronous append sink: a write immediately
  lands in the file.  The engine only ever compares sizes after an explicit
  `flush()`, so this abstraction does not change any of the studied logic.
-/

namespace PinoFileTransport

/-! ## Calendar model (JS `Date` arithmetic, local time = UTC)

Days are counted from 0000-01-01 (proleptic Gregorian, year 0 is a leap
year), which is day 0.  1970-01-01 is day 719528.  Months are counted
absolutely: absolute month `M` is month `M % 12` (0 = January) of year
`M / 12`.
-/
/-- JS leap-year rule (proleptic Gregorian). -/
def isLeap (y : Int) : Bool :=
  (y % 4 == 0 && y % 100 != 0) || y % 400 == 0

/-- Number of leap years `k` with `0 ≤ k < y` (linearly extended to `y < 0`). -/
def leapCount (y : Int) : Int :=
  (y + 3) / 4 - (y + 99) / 100 + (y + 399) / 400

/-- Days from 0000-01-01 to the first day of year `y`. -/
def daysBeforeYear (y : Int) : Int :=
  365 * y + leapCount y

/-- Cumulative days before month index `m` (0 = January) in a non-leap year. -/
def daysBeforeMonth (m : Int) : Int :=
  if m ≤ 0 then 0
  else if m = 1 then 31
  else if m = 2 then 59
  else if m = 3 then 90
  else if m = 4 then 120
  else if m = 5 then 151
  else if m = 6 then 181
  else if m = 7 then 212
  else if m = 8 then 243
  else if m = 9 then 273
  else if m = 10 then 304
  else if m = 11 then 334
  else 365

/-- One extra day in and after February of a leap year. -/
def leapDay (y : Int) : Int :=
  if isLeap y then 1 else 0

/-- Cumulative days before month index `m` of year `y`, leap-adjusted. -/
def daysBeforeMonthAdj (y m : Int) : Int :=
  daysBeforeMonth m + (if 2 ≤ m ∧ isLeap y then 1 else 0)

/-- Days from 0000-01-01 to the first day of absolute month `M`. -/
def monthsToDays (M : Int) : Int :=
  daysBeforeYear (M / 12) + daysBeforeMonthAdj (M / 12) (M % 12)

/-- Day count of the day `⟨y, m0, d⟩` under JS `new Date(y, m0, d)` field
normalization: `m0` is the 0-based month index and both `m0` and `d` may be
out of range (JS normalizes them linearly). -/
def daysFromFields (y m0 d : Int) : Int :=
  monthsToDays (12 * y + m0) + (d - 1)

/-- Number of days in month index `m` (0-based) of year `y`. -/
def daysInMonth (y m : Int) : Int :=
  daysBeforeMonthAdj y (m + 1) - daysBeforeMonthAdj y m

/-! ### Inverse conversion: day count to civil date -/
/-- Bounded linear search for the year containing day `d` (counting up from
`y`). -/
def yearSearch : Nat → Int → Int → Int
  | 0, y, _ => y
  | fuel + 1, y, d => if daysBeforeYear (y + 1) ≤ d then yearSearch fuel (y + 1) d else y

/-- The year containing day `d` (valid for `0 ≤ d <` day count of year 10100). -/
def yearOfDays (d : Int) : Int :=
  yearSearch 10100 0 d

/-- Upward search for the 0-based month index whose cumulative day range
contains the year-relative day offset `r` (an internal inverse helper; the
source delegates this to the JS `Date` runtime). -/
def monthSearch (y r : Int) : Nat → Int
  | 0 => 0
  | k + 1 => if daysBeforeMonthAdj y (k + 1) ≤ r then k + 1 else monthSearch y r k

/-- 0-based month index of year `y` containing year-relative day offset `r`. -/
def monthOfYearDay (y r : Int) : Int :=
  monthSearch y r 11

/-- Civil date `(year, month 1-12, day 1-31)` of day count `d`. -/
def civilFromDays (d : Int) : Int × Int × Int :=
  let y := yearOfDays d
  let r := d - daysBeforeYear y
  let m := monthOfYearDay y r
  (y, m + 1, r - daysBeforeMonthAdj y m + 1)

/-! ### Millisecond-level time helpers -/
def msPerDay : Int := 86400000

/-- Day count (from 0000-01-01) of the civil day containing epoch time `t`. -/
def epochDays : Int := 719528

def daysOfMs (t : Int) : Int := t / msPerDay + epochDays

/-- JS `getHours()` (local time = UTC). -/
def hourOf (t : Int) : Int := (t / 3600000) % 24

/-- JS `getMinutes()`. -/
def minuteOf (t : Int) : Int := (t / 60000) % 60

/-- JS `getSeconds()`. -/
def secondOf (t : Int) : Int := (t / 1000) % 60

/-- JS `getMilliseconds()`. -/
def millisOf (t : Int) : Int := t % 1000

/-- Epoch milliseconds of `new Date(y, m0, d, h, min, s, ms)` (local = UTC),
with JS field normalization. -/
def jsTime (y m0 d h min s ms : Int) : Int :=
  (daysFromFields y m0 d - epochDays) * msPerDay + h * 3600000 + min * 60000 + s * 1000 + ms

/-! ### Digit and string helpers

Filenames are manipulated as `List Char`.  JS strings are UTF-16; all the
characters handled by the source's patterns are ASCII, where the two models
agree.
-/
def isDigitChar (c : Char) : Bool := 48 ≤ c.toNat && c.toNat ≤ 57

def digitVal (c : Char) : Int := (c.toNat : Int) - 48

def digitChar (n : Int) : Char := Char.ofNat (48 + n.toNat)

/-- `String(n).padStart(2, "0")` for `0 ≤ n ≤ 99`. -/
def pad2 (n : Int) : List Char := [digitChar (n / 10), digitChar (n % 10)]

/-- `String(n).padStart(3, "0")` for `0 ≤ n ≤ 999`. -/
def pad3 (n : Int) : List Char :=
  [digitChar (n / 100), digitChar (n / 10 % 10), digitChar (n % 10)]

/-- 4-digit ISO year for `0 ≤ n ≤ 9999`. -/
def pad4 (n : Int) : List Char :=
  [digitChar (n / 1000), digitChar (n / 100 % 10), digitChar (n / 10 % 10), digitChar (n % 10)]

/-- Read exactly `n` digit characters as a base-10 number, returning the rest. -/
def takeDigits : Nat → List Char → Int → Option (Int × List Char)
  | 0, cs, acc => some (acc, cs)
  | n + 1, c :: cs, acc =>
      if isDigitChar c then takeDigits n cs (acc * 10 + digitVal c) else none
  | _ + 1, [], _ => none

def expectChar (c : Char) : List Char → Option (List Char)
  | c' :: cs => if c' = c then some cs else none
  | [] => none

/-- `YYYY-MM-DD` day string of a day count. -/
def isoDateOfDays (d : Int) : List Char :=
  let c := civilFromDays d
  pad4 c.1 ++ '-' :: (pad2 c.2.1 ++ '-' :: pad2 c.2.2)

/-- `toISOString().slice(0, 10)` of epoch time `t`. -/
def isoDateOf (t : Int) : List Char :=
  isoDateOfDays (daysOfMs t)

/-! ## `src/utils/parsing.ts` and `src/utils/time.ts` -/
inductive RotationFrequency | hourly | daily
  deriving DecidableEq, Repr

inductive ArchiveFrequency | hourly | daily | weekly | monthly
  deriving DecidableEq, Repr

inductive DurationUnit | h | d | w | m | y
  deriving DecidableEq, Repr

structure ParsedDuration where
  value : Int
  unit : DurationUnit
  deriving DecidableEq, Repr

/-- `parseDuration`: the regex `^(\d+)([hdwmy])$`.  The JS version throws on
no match; we return `none` in that case. -/
def parseDuration (duration : String) : Option ParsedDuration :=
  match duration.data.reverse with
  | u :: rest =>
      let digits := rest.reverse
      if digits ≠ [] ∧ digits.all isDigitChar then
        let value := digits.foldl (fun a c => a * 10 + digitVal c) 0
        if u = 'h' then some ⟨value, .h⟩
        else if u = 'd' then some ⟨value, .d⟩
        else if u = 'w' then some ⟨value, .w⟩
        else if u = 'm' then some ⟨value, .m⟩
        else if u = 'y' then some ⟨value, .y⟩
        else none
      else none
  | [] => none

/-- `getLogPath`. -/
def getLogPath (logDir period : String) : String :=
  logDir ++ "/" ++ period ++ ".log"

/-- `getArchiveFilename`. -/
def getArchiveFilename (period : String) : String :=
  period ++ "-archive.tar.gz"

/-- Drop the last `n` characters. -/
def dropLastN (cs : List Char) (n : Nat) : List Char :=
  cs.take (cs.length - n)

/-- `filename.replace(/\.log$/, "")`. -/
def stripDotLog (cs : List Char) : List Char :=
  if cs.reverse.take 4 = ['g', 'o', 'l', '.'] then dropLastN cs 4 else cs

/-- Prefix match `^(\d{4})-(\d{2})-(\d{2})`; returns the three numbers and
the remaining characters. -/
def dateMatch (cs : List Char) : Option (Int × Int × Int × List Char) := do
  let (y, r) ← takeDigits 4 cs 0
  let r ← expectChar '-' r
  let (mo, r) ← takeDigits 2 r 0
  let r ← expectChar '-' r
  let (d, r) ← takeDigits 2 r 0
  pure (y, mo, d, r)

/-- Whether `new Date("YYYY-MM-DD")` yields a valid date. -/
def validDate (y mo d : Int) : Bool :=
  1 ≤ mo && mo ≤ 12 && 1 ≤ d && d ≤ daysInMonth y (mo - 1)

/-- `getMondayOfWeek` on an epoch time (JS takes a `Date`; it reads
`getDay`/`getDate`, shifts with `setDate`, and slices the ISO string). -/
def getMondayOfWeek (t : Int) : List Char :=
  let days := daysOfMs t
  let c := civilFromDays days
  let wd := (days + 6) % 7
  let diff := c.2.2 - wd + (if wd = 0 then -6 else 1)
  isoDateOfDays (daysFromFields c.1 (c.2.1 - 1) diff)

/-- `getFilePeriod`: archive-period key of a log filename. -/
def getFilePeriod (filename : String) (frequency : ArchiveFrequency) : Option String :=
  let base := stripDotLog filename.data
  match dateMatch base with
  | none => none
  | some (y, mo, d, rest) =>
      if validDate y mo d then
        let dateStr := base.take 10
        let hourMatch : Option (List Char) :=
          match rest with
          | '~' :: h1 :: h2 :: _ =>
              if isDigitChar h1 ∧ isDigitChar h2 then some [h1, h2] else none
          | _ => none
        match frequency with
        | .hourly =>
            match hourMatch with
            | some hh => some ⟨dateStr ++ '~' :: hh⟩
            | none => some ⟨dateStr ++ ['~', '0', '0']⟩
        | .daily => some ⟨dateStr⟩
        | .weekly =>
            some ⟨getMondayOfWeek ((daysFromFields y (mo - 1) d - epochDays) * msPerDay)⟩
        | .monthly => some ⟨dateStr.take 7⟩
      else none

/-- `parseLogFilename`: epoch time embedded in a log filename. -/
def parseLogFilename (filename : String) : Option Int :=
  let base := stripDotLog filename.data
  -- hourly/overflow prefix: ^(\d{4})-(\d{2})-(\d{2})~(\d{2})
  let hourly : Option Int :=
    match dateMatch base with
    | some (y, mo, d, rest) =>
        match rest with
        | '~' :: h1 :: h2 :: _ =>
            if isDigitChar h1 ∧ isDigitChar h2 then
              some (jsTime y (mo - 1) d (digitVal h1 * 10 + digitVal h2) 0 0 0)
            else none
        | _ => none
    | none => none
  match hourly with
  | some t => some t
  | none =>
      -- daily: ^(\d{4})-(\d{2})-(\d{2})$
      match dateMatch base with
      | some (y, mo, d, rest) =>
          if rest = [] then some (jsTime y (mo - 1) d 0 0 0 0) else none
      | none => none

/-- Strip the archive filename suffix `-archive(-\d+)?\.tar\.gz$` if present
(JS `replace` leaves the string unchanged otherwise). -/
def stripArchiveSuffix (cs : List Char) : List Char :=
  if cs.reverse.take 7 = ".tar.gz".data.reverse then
    let s' := dropLastN cs 7
    if s'.reverse.take 8 = "-archive".data.reverse then dropLastN s' 8
    else
      let ds := s'.reverse.takeWhile isDigitChar
      let pre := dropLastN s' ds.length
      if ds ≠ [] ∧ pre.reverse.take 9 = "-archive-".data.reverse then dropLastN pre 9
      else cs
  else cs

/-- `parseArchiveFilename`: epoch time embedded in an archive filename. -/
def parseArchiveFilename (filename : String) : Option Int :=
  let base := stripArchiveSuffix filename.data
  match dateMatch base with
  | some (y, mo, d, rest) =>
      match rest with
      | ['~', h1, h2] =>
          if isDigitChar h1 ∧ isDigitChar h2 then
            some (jsTime y (mo - 1) d (digitVal h1 * 10 + digitVal h2) 0 0 0)
          else none
      | [] => some (jsTime y (mo - 1) d 0 0 0 0)
      | _ => none
  | none =>
      -- monthly: ^(\d{4})-(\d{2})$
      match (do
        let (y, r) ← takeDigits 4 base 0
        let r ← expectChar '-' r
        let (mo, r) ← takeDigits 2 r 0
        pure (y, mo, r) : Option (Int × Int × List Char)) with
      | some (y, mo, rest) =>
          if rest = [] then some (jsTime y (mo - 1) 1 0 0 0 0) else none
      | none => none

/-- Test of `getOverflowPattern(period, frequency)` against a filename:
hourly `^<date>~<hour>-\d{2}-\d{2}.*\.log$`, daily
`^<period>~\d{2}-\d{2}-\d{2}.*\.log$`.  For an hourly period
`<date>~<hour>` both shapes coincide: period, `~` resp. `-`, then two more
`-\d{2}` groups resp. `\d{2}-\d{2}-\d{2}`, then anything ending in `.log`. -/
def matchesOverflowPattern (period : String) (frequency : RotationFrequency) (f : String) : Bool :=
  let cs := f.data
  let pl := period.length
  decide (cs.take pl = period.data) &&
    (match frequency, cs.drop pl with
     | .hourly, '-' :: a :: b :: '-' :: c :: d :: rest =>
         isDigitChar a && isDigitChar b && isDigitChar c && isDigitChar d &&
           decide (rest.reverse.take 4 = ['g', 'o', 'l', '.'])
     | .daily, '~' :: a :: b :: '-' :: c :: d :: '-' :: e :: g :: rest =>
         isDigitChar a && isDigitChar b && isDigitChar c && isDigitChar d &&
           isDigitChar e && isDigitChar g &&
           decide (rest.reverse.take 4 = ['g', 'o', 'l', '.'])
     | _, _ => false)

/-- `generateOverflowFilename` (the `now` argument stands for the JS
`new Date()`). -/
def generateOverflowFilename (logDir : String) (now : Int) : String :=
  logDir ++ "/" ++ ⟨isoDateOf now⟩ ++ "~" ++ ⟨pad2 (hourOf now)⟩ ++ "-" ++
    ⟨pad2 (minuteOf now)⟩ ++ "-" ++ ⟨pad2 (secondOf now)⟩ ++ "~" ++
    ⟨pad3 (millisOf now)⟩ ++ ".log"

/-- `getCurrentRotationPeriod`. -/
def getCurrentRotationPeriod (frequency : RotationFrequency) (now : Int) : String :=
  match frequency with
  | .hourly => ⟨isoDateOf now ++ '~' :: pad2 (hourOf now)⟩
  | .daily => ⟨isoDateOf now⟩

/-- `getCurrentArchivePeriod`. -/
def getCurrentArchivePeriod (frequency : ArchiveFrequency) (now : Int) : String :=
  match frequency with
  | .hourly => ⟨isoDateOf now ++ '~' :: pad2 (hourOf now)⟩
  | .daily => ⟨isoDateOf now⟩
  | .weekly => ⟨getMondayOfWeek now⟩
  | .monthly => ⟨(isoDateOf now).take 7⟩

/-- Largest representable JS date offset: `8.64e15` ms. -/
def maxJsTime : Int := 8640000000000000

/-- `getCutoffDate(now, value, unit)`.  `none` models an `Invalid Date`
(time value outside the representable range). -/
def getCutoffDate (now : Int) (value : Int) (unit : DurationUnit) : Option Int :=
  let cutoff : Int :=
    match unit with
    | .h => now - value * 3600000
    | .d => now - value * msPerDay
    | .w => now - value * 7 * msPerDay
    | .m =>
        let c := civilFromDays (daysOfMs now)
        (daysFromFields c.1 (c.2.1 - 1 - value) c.2.2 - epochDays) * msPerDay + now % msPerDay
    | .y =>
        let c := civilFromDays (daysOfMs now)
        (daysFromFields (c.1 - value) (c.2.1 - 1) c.2.2 - epochDays) * msPerDay + now % msPerDay
  if cutoff < -maxJsTime ∨ maxJsTime < cutoff then none else some cutoff

/-- `frequencyToHours` (shared by rotation and archive frequencies; rotation
frequencies embed into archive frequencies). -/
def frequencyToHours (frequency : ArchiveFrequency) : Int :=
  match frequency with
  | .hourly => 1
  | .daily => 24
  | .weekly => 24 * 7
  | .monthly => 24 * 31

def rotationFrequencyToArchive : RotationFrequency → ArchiveFrequency
  | .hourly => .hourly
  | .daily => .daily

/-- `durationToHours`. -/
def durationToHours (value : Int) (unit : DurationUnit) : Int :=
  match unit with
  | .h => value
  | .d => value * 24
  | .w => value * 24 * 7
  | .m => value * 24 * 31
  | .y => value * 24 * 366

/-- Duration of a rotation period in milliseconds (verification helper). -/
def rotationLenMs : RotationFrequency → Int
  | .hourly => 3600000
  | .daily => msPerDay

/-- Minimal backward gap of a cutoff (used for current-file preservation). -/
def minGapMs (u : DurationUnit) : Int :=
  match u with
  | .h => 3600000
  | _ => msPerDay

/-! ## `src/types.ts`: option resolution and constraint validation -/
structure ResolvedRotationConfig where
  maxSize : Rat
  frequency : RotationFrequency
  logging : Bool

structure ResolvedArchiveConfig where
  enabled : Bool
  path : String
  frequency : ArchiveFrequency
  runOnCreation : Bool
  logging : Bool

structure ResolvedRetentionConfig where
  enabled : Bool
  duration : Option String
  logging : Bool

structure ResolvedTransportOptions where
  path : String
  rotation : ResolvedRotationConfig
  archive : ResolvedArchiveConfig
  retention : ResolvedRetentionConfig

/-- User-facing options; `none` models an omitted field. -/
structure TransportOptions where
  path : String
  rotationMaxSize : Option Rat := none
  rotationFrequency : Option RotationFrequency := none
  rotationLogging : Option Bool := none
  archiveEnabled : Option Bool := none
  archivePath : Option String := none
  archiveFrequency : Option ArchiveFrequency := none
  archiveRunOnCreation : Option Bool := none
  archiveLogging : Option Bool := none
  retentionEnabled : Option Bool := none
  retentionDuration : Option String := none
  retentionLogging : Option Bool := none

/-- Defaults (`DEFAULT_OPTIONS`).  The `config.ts` snapshot in the repository
omits `retention.enabled`, while `resolveOptions` reads
`DEFAULT_OPTIONS.retention.enabled` and the README documents the default as
`true` (and test 04 requires the retention constraint check to run on a
default-enabled config); we model the documented default `true`. -/
def defaultRetentionEnabled : Bool := true

/-- `validateConstraints`.  `Except.error` models a thrown configuration
error. -/
def validateConstraints (options : ResolvedTransportOptions) : Except String Unit := do
  let rotationHours := frequencyToHours (rotationFrequencyToArchive options.rotation.frequency)
  let archiveHours := frequencyToHours options.archive.frequency
  if options.archive.enabled ∧ archiveHours < rotationHours then
    throw "archive.frequency must be >= rotation.frequency"
  else
    match options.retention.enabled, options.retention.duration with
    | true, some dur =>
        match parseDuration dur with
        | none => throw "Invalid duration format"
        | some pd =>
            let retentionHours := durationToHours pd.value pd.unit
            if options.archive.enabled ∧ retentionHours < archiveHours then
              throw "retention.duration must be >= archive.frequency"
            else if retentionHours < rotationHours then
              throw "retention.duration must be >= rotation.frequency"
            else if pd.unit = .h ∧ options.rotation.frequency = .daily then
              throw "retention.duration with hours cannot be used with daily rotation"
            else pure ()
    | _, _ => pure ()

/-- `resolveOptions`. -/
def resolveOptions (options : TransportOptions) : Except String ResolvedTransportOptions := do
  if options.path = "" then
    throw "'path' option is required"
  else
    let maxSize0 := options.rotationMaxSize.getD 100
    let maxSize := if maxSize0 = 0 then (0 : Rat) else if maxSize0 < 1 then 1 else maxSize0
    let resolved : ResolvedTransportOptions :=
      { path := options.path
        rotation :=
          { maxSize := maxSize
            frequency := options.rotationFrequency.getD .daily
            logging := options.rotationLogging.getD false }
        archive :=
          { enabled := options.archiveEnabled.getD true
            path := options.archivePath.getD "archives"
            frequency := options.archiveFrequency.getD .monthly
            runOnCreation := options.archiveRunOnCreation.getD true
            logging := options.archiveLogging.getD false }
        retention :=
          { enabled := options.retentionEnabled.getD defaultRetentionEnabled
            duration := options.retentionDuration
            logging := options.retentionLogging.getD false } }
    match validateConstraints resolved with
    | .error e => throw e
    | .ok _ => pure resolved

/-! ## `src/workers/retention.worker.ts` -/
/-- JS `String.prototype.endsWith` (decidability-friendly form). -/
def strEndsWith (s suffix : String) : Bool :=
  decide (s.data.reverse.take suffix.data.length = suffix.data.reverse)

structure RetentionResult where
  deletedLogs : List String
  deletedArchives : List String
  deriving DecidableEq, Repr

/-- One run of the retention worker over directory listings `logFiles` (the
log directory) and `archiveFiles` (the archive directory; `[]` when the
directory does not exist).  A `parseDuration` failure is thrown and caught
by the worker's try/catch, deleting nothing; an invalid cutoff date makes
every `fileDate < cutoffDate` comparison false. -/
def runRetentionWorker (logFiles archiveFiles : List String)
    (duration : Option String) (now : Int) : RetentionResult :=
  match duration with
  | none => ⟨[], []⟩
  | some dur =>
      match parseDuration dur with
      | none => ⟨[], []⟩
      | some pd =>
          let cutoff := getCutoffDate now pd.value pd.unit
          let lt : Option Int → Bool := fun ts =>
            match ts, cutoff with
            | some a, some c => decide (a < c)
            | _, _ => false
          ⟨(logFiles.filter (fun f => strEndsWith f ".log")).filter
              (fun f => lt (parseLogFilename f)),
           (archiveFiles.filter (fun f => strEndsWith f ".tar.gz")).filter
              (fun f => lt (parseArchiveFilename f))⟩

/-! ## Filesystem model and `src/transport/file-transport.ts` -/
/-- Files on disk: full path to size in bytes.  First binding wins.  Byte
sizes are integers (a fractional `maxSize` in MB whose byte value is not
integral is outside this model). -/
abbrev FS := List (String × Int)

/-- `getFileSizeSync`: 0 for a missing file (the JS version catches the
`stat` error). -/
def getFileSizeSync (fs : FS) (path : String) : Int :=
  match fs.lookup path with
  | some n => n
  | none => 0

/-- `fs.closeSync(fs.openSync(path, "a"))`: create the file if absent, keep
it unchanged otherwise. -/
def touchFile (fs : FS) (path : String) : FS :=
  match fs.lookup path with
  | some _ => fs
  | none => (path, 0) :: fs

/-- Append `n` bytes to `path` (creating it at size `n` if absent). -/
def appendBytes : FS → String → Int → FS
  | [], p, n => [(p, n)]
  | (q, s) :: rest, p, n =>
      if q = p then (q, s + n) :: rest else (q, s) :: appendBytes rest p n

/-- `readdirSync(logDir)`: basenames of the direct entries of `logDir`. -/
def readdirNames (fs : FS) (logDir : String) : List String :=
  fs.filterMap (fun e =>
    let pre := (logDir ++ "/").data
    if e.1.data.take pre.length = pre ∧ ¬ (e.1.data.drop pre.length).contains '/' then
      some ⟨e.1.data.drop pre.length⟩
    else none)

/-- JS `Array.prototype.sort()` comparator on strings (UTF-16 code units;
all names in play are ASCII, where this agrees with codepoint order). -/
def charListLe : List Char → List Char → Bool
  | [], _ => true
  | _ :: _, [] => false
  | a :: as, b :: bs =>
      if a.toNat < b.toNat then true
      else if b.toNat < a.toNat then false
      else charListLe as bs

def strLe (a b : String) : Bool := charListLe a.data b.data

def charListLt : List Char → List Char → Bool
  | [], [] => false
  | [], _ :: _ => true
  | _ :: _, [] => false
  | a :: as, b :: bs =>
      if a.toNat < b.toNat then true
      else if b.toNat < a.toNat then false
      else charListLt as bs

def strLt (a b : String) : Bool := charListLt a.data b.data

/-- Stable ascending insertion (equal keys keep submission order), used to
model JS `Array.prototype.sort()`. -/
def insertAsc (x : String) : List String → List String
  | [] => [x]
  | y :: ys => if strLt x y then x :: y :: ys else y :: insertAsc x ys

/-- JS `Array.prototype.sort()` on strings. -/
def sortJS (l : List String) : List String :=
  l.foldl (fun acc x => insertAsc x acc) []

/-- `Buffer.byteLength(line, "utf8")`. -/
def utf8Len (s : String) : Int := (s.utf8ByteSize : Int)

inductive RotateReason | period | size
  deriving DecidableEq, Repr

/-- The mutable fields of a `FileTransport` instance (plus its immutable
options). -/
structure TransportState where
  logDir : String
  rotationFrequency : RotationFrequency
  maxSizeBytes : Int
  currentPeriod : String
  currentFilePath : String
  bytesWritten : Int
  isRotating : Bool
  pendingWrites : List String
  lastDiskCheckTime : Int
  lastDiskSize : Int
  nextCheckIntervalMs : Rat
  deriving DecidableEq, Repr

def MIN_CHECK_INTERVAL_MS : Rat := 50

def MAX_CHECK_INTERVAL_MS : Rat := 2000

/-- The float `0.98`, as an exact rational. -/
def ROTATION_THRESHOLD_PERCENT : Rat := 49 / 50

/-- `FileTransport.findAvailableLogPath`. -/
def findAvailableLogPath (st : TransportState) (fs : FS) (excludeCurrentFile : Bool)
    (now : Int) : String :=
  let mainLogPath := getLogPath st.logDir st.currentPeriod
  let isCurrentFileMainLog := st.currentFilePath = mainLogPath
  if ¬ (excludeCurrentFile = true ∧ isCurrentFileMainLog) ∧
      (st.maxSizeBytes = 0 ∨ getFileSizeSync fs mainLogPath < st.maxSizeBytes) then
    mainLogPath
  else
    let files := readdirNames fs st.logDir
    let overflowFiles :=
      (sortJS (files.filter (fun f =>
        matchesOverflowPattern st.currentPeriod st.rotationFrequency f))).reverse
    match overflowFiles.find? (fun f =>
        ¬ (excludeCurrentFile = true ∧ st.logDir ++ "/" ++ f = st.currentFilePath) ∧
        (st.maxSizeBytes = 0 ∨ getFileSizeSync fs (st.logDir ++ "/" ++ f) < st.maxSizeBytes)) with
    | some f => st.logDir ++ "/" ++ f
    | none => generateOverflowFilename st.logDir now

/-- `FileTransport.rotate`, in the single-process view: the rotation-lock
round-trip and the stream flush/drain are no-ops here (the lock protocol is
modelled separately), and the optional `.meta` rotation-event record is
omitted (observational only, never read back). -/
def rotate (reason : RotateReason) (now : Int) (st : TransportState) (fs : FS) :
    TransportState × FS :=
  let st := { st with currentPeriod := getCurrentRotationPeriod st.rotationFrequency now }
  let currentSize := getFileSizeSync fs st.currentFilePath
  -- `currentSize < maxSizeBytes * 0.98`, stated over integers (` * 50 ... * 49`)
  -- so that the kernel can evaluate it
  if reason = .size ∧ st.maxSizeBytes > 0 ∧
      currentSize * 50 < st.maxSizeBytes * 49 then
    ({ st with bytesWritten := currentSize, lastDiskSize := currentSize,
               lastDiskCheckTime := now }, fs)
  else
    let newPath := findAvailableLogPath st fs (reason = .size) now
    if newPath = st.currentFilePath ∧ getFileSizeSync fs newPath < st.maxSizeBytes then
      ({ st with bytesWritten := getFileSizeSync fs newPath,
                 lastDiskSize := getFileSizeSync fs newPath }, fs)
    else
      let fs' := touchFile fs newPath
      let size := getFileSizeSync fs' newPath
      ({ st with currentFilePath := newPath, bytesWritten := size, lastDiskSize := size,
                 lastDiskCheckTime := now }, fs')

/-- A transport world: state, disk, and the chronological log of lines
handed to the SonicBoom sink. -/
structure World where
  st : TransportState
  fs : FS
  written : List (String × String)
  deriving DecidableEq, Repr

/-- `this.sonicWrite(line)` in the synchronous model. -/
def sonicWrite (line : String) (w : World) : World :=
  { w with fs := appendBytes w.fs w.st.currentFilePath (utf8Len line),
           written := w.written ++ [(w.st.currentFilePath, line)] }

/-- The adaptive disk-check block of `FileTransport.write` (the body of
`if (now - this.lastDiskCheckTime >= this.nextCheckIntervalMs)`), returning
the updated state and the `sizeExceeded` flag it computes. -/
def adaptiveCheck (w : World) (now : Int) : TransportState × Bool :=
  if w.st.maxSizeBytes > 0 ∧
      ((now - w.st.lastDiskCheckTime : Int) : Rat) ≥ w.st.nextCheckIntervalMs then
    let actualSize := getFileSizeSync w.fs w.st.currentFilePath
    let elapsedMs : Rat := ((now - w.st.lastDiskCheckTime : Int) : Rat)
    let bytesGrown : Rat := ((actualSize - w.st.lastDiskSize : Int) : Rat)
    let bytesPerMs := if elapsedMs > 0 then bytesGrown / elapsedMs else 0
    let bytesRemaining : Rat := ((w.st.maxSizeBytes - actualSize : Int) : Rat)
    let fillPercent := (actualSize : Rat) / (w.st.maxSizeBytes : Rat)
    let exceeded : Bool :=
      if actualSize ≥ w.st.maxSizeBytes then true
      else if fillPercent ≥ ROTATION_THRESHOLD_PERCENT then true
      else false
    let nextInterval :=
      if exceeded = false ∧ bytesPerMs > 0 ∧ bytesRemaining > 0 then
        max MIN_CHECK_INTERVAL_MS
          (min MAX_CHECK_INTERVAL_MS (bytesRemaining / bytesPerMs / 4))
      else w.st.nextCheckIntervalMs
    ({ w.st with nextCheckIntervalMs := nextInterval, lastDiskSize := actualSize,
                 lastDiskCheckTime := now, bytesWritten := actualSize }, exceeded)
  else (w.st, false)

/-- `FileTransport.write`.  Returns the new world, the boolean result, and
the rotation reason when a rotation was started (the started rotation runs
asynchronously; it is a separate step of the operational model). -/
def write (data : String) (now : Int) (w : World) : World × Bool × Option RotateReason :=
  let line := if strEndsWith data "\n" then data else data ++ "\n"
  if w.st.isRotating then
    ({ w with st.pendingWrites := w.st.pendingWrites ++ [line] }, true, none)
  else
    let lineBytes := utf8Len line
    let currentPeriod := getCurrentRotationPeriod w.st.rotationFrequency now
    let periodChanged := currentPeriod ≠ w.st.currentPeriod
    let st1 := adaptiveCheck w now
    let sizeExceeded :=
      st1.2 = true ∨
        (w.st.maxSizeBytes > 0 ∧ st1.1.bytesWritten + lineBytes ≥ w.st.maxSizeBytes)
    if periodChanged ∨ sizeExceeded then
      let stR := { st1.1 with isRotating := true,
                              pendingWrites := st1.1.pendingWrites ++ [line] }
      ({ w with st := stR }, true, some (if sizeExceeded then .size else .period))
    else
      let st2 := { st1.1 with bytesWritten := st1.1.bytesWritten + lineBytes }
      (sonicWrite line { w with st := st2 }, true, none)

/-- Outcome of one pass of the `for (const line of pending)` loop: either
the pass finished, or it hit the size trigger (having re-queued
`pending.slice(pending.indexOf(line))`, exactly as the source does) and a
further rotation is required. -/
inductive DrainOutcome
  | done (w : World)
  | trigger (w : World)
  deriving Repr

/-- One pass of `processPendingWrites`' loop over the suffix `rest` of the
captured `pending` array. -/
def drainPass (pending : List String) : List String → World → DrainOutcome
  | [], w => .done w
  | line :: rest, w =>
      let lineBytes := utf8Len line
      if w.st.maxSizeBytes > 0 ∧ w.st.bytesWritten + lineBytes ≥ w.st.maxSizeBytes then
        let idx := pending.indexOf line
        .trigger { w with st.pendingWrites := pending.drop idx ++ w.st.pendingWrites }
      else
        let w' := { w with st.bytesWritten := w.st.bytesWritten + lineBytes }
        drainPass pending rest (sonicWrite line w')

/-- `FileTransport.processPendingWrites`, with the recursive
`rotate("size").then(() => processPendingWrites())` chain made explicit:
`fuel` bounds the number of re-rotations and `times` supplies the wall
clock of each rotation.  When the fuel or clock runs out at a trigger, the
world is returned as it stands (queued writes still pending). -/
def processPendingWrites : Nat → List Int → World → World
  | 0, _, w =>
      (match drainPass w.st.pendingWrites w.st.pendingWrites
          { w with st.pendingWrites := [] } with
        | .done w' => w'
        | .trigger w' => w')
  | fuel + 1, times, w =>
      match drainPass w.st.pendingWrites w.st.pendingWrites
          { w with st.pendingWrites := [] } with
      | .done w' => w'
      | .trigger w' =>
          match times with
          | t :: ts =>
              let r := rotate .size t w'.st w'.fs
              processPendingWrites fuel ts { st := r.1, fs := r.2, written := w'.written }
          | [] => w'

/-- A 97-byte filler line (`"xxx…x\n"`). -/
def fillerLine : String := ⟨List.replicate 96 'x' ++ ['\n']⟩

/-- A 99-byte payload line (`"aaa…a\n"`), queued twice in the duplicate
scenario. -/
def dupLine : String := ⟨List.replicate 98 'a' ++ ['\n']⟩

/-- The duplicate-payload drain scenario: max size 200 bytes, an empty
current file, and a buffered queue holding a 97-byte filler and two equal
99-byte payloads (as left by `write` when a rotation was in progress). -/
def dupScenario : World :=
  ⟨⟨"logs", .daily, 200, "2026-10-11", "logs/2026-10-11.log", 0, false,
    [fillerLine, dupLine, dupLine], 0, 0, 500⟩,
   [("logs/2026-10-11.log", 0)], []⟩

/-! ### Operational model for the adaptive check interval (C9) -/
/-- The initial value of `nextCheckIntervalMs` (source: field initializer). -/
def NEXT_CHECK_INTERVAL_INIT : Rat := 500

/-- The operations that touch a transport instance: its own `write`s,
rotations and drains (with their wall-clock times), the
`finally(() => isRotating = false)` step, and arbitrary external mutation
of the shared directory by other processes. -/
inductive EngineOp where
  | writeOp (data : String) (now : Int)
  | rotateOp (reason : RotateReason) (now : Int)
  | drainOp (fuel : Nat) (times : List Int)
  | endRotationOp
  | extOp (fs : FS)

def stepOp (w : World) : EngineOp → World
  | .writeOp d t => (write d t w).1
  | .rotateOp r t =>
      let p := rotate r t w.st w.fs
      ⟨p.1, p.2, w.written⟩
  | .drainOp fuel ts => processPendingWrites fuel ts w
  | .endRotationOp => { w with st.isRotating := false }
  | .extOp fs => { w with fs := fs }

def runOps (w : World) (ops : List EngineOp) : World :=
  ops.foldl stepOp w

/-- The interval invariant of C9. -/
def intervalInv (w : World) : Prop :=
  MIN_CHECK_INTERVAL_MS ≤ w.st.nextCheckIntervalMs ∧
    w.st.nextCheckIntervalMs ≤ MAX_CHECK_INTERVAL_MS

/-! ## Worker locks (`locks/worker.ts`) and the rotation lock -/
/-- `LOCK_SETTINGS.WORKER_STALE_MS`. -/
def WORKER_STALE_MS : Int := 20000

/-- `WorkerLockData` (types.ts); `startedAt`/`heartbeat` are ISO strings in
the source, stored and read back through `new Date(s).getTime()`, so they
are modelled as the epoch-ms instants they denote. -/
structure WorkerLockData where
  pid : Int
  startedAt : Int
  heartbeat : Int
  attempt : Int
deriving DecidableEq

/-- `tryAcquireWorkerLock` (`locks/worker.ts` lines 29-68) on the lease
record currently stored (`none` = the lock file is absent or unparseable):
returns the written record on success, `none` when a fresh holder blocks
acquisition.  `attempt` is the caller's parameter (every scheduler passes
the default `1`). -/
def tryAcquireWorkerLock (existing : Option WorkerLockData) (pid now attempt : Int) :
    Option WorkerLockData :=
  match existing with
  | some lock =>
      if now - lock.heartbeat < WORKER_STALE_MS then none
      else some ⟨pid, now, now, lock.attempt + 1⟩
  | none => some ⟨pid, now, now, attempt⟩

/-- The stored lease record after an acquisition attempt: the new record on
success, the old state untouched on failure. -/
def workerLockAfter (existing : Option WorkerLockData) (pid now attempt : Int) :
    Option WorkerLockData :=
  match tryAcquireWorkerLock existing pid now attempt with
  | some d => some d
  | none => existing

/-- `LOCK_SETTINGS.ROTATION_STALE_MS`. -/
def ROTATION_STALE_MS : Int := 10000

/-- `LOCK_SETTINGS.ROTATION_RETRY_MS`. -/
def ROTATION_RETRY_MS : Int := 20

/-- `LOCK_SETTINGS.ROTATION_MAX_RETRIES`. -/
def ROTATION_MAX_RETRIES : Nat := 50

/-- `tryAcquireRotationLock` on the lock-directory state (`some mtime` when
the lock directory exists): remove it when stale (`age > 10s`), then the
atomic `mkdirSync` succeeds iff no lock remains.  Returns the outcome and
the new lock state. -/
def tryAcquireRotationLock (lock : Option Int) (now : Int) : Bool × Option Int :=
  let lock1 : Option Int :=
    match lock with
    | some mtime => if now - mtime > ROTATION_STALE_MS then none else some mtime
    | none => none
  match lock1 with
  | none => (true, some now)
  | some m => (false, some m)

/-- Two "simultaneous" acquisition attempts against the same directory: the
atomic `mkdir` serializes them, so the second sees the first's outcome. -/
def rotationRace (lock : Option Int) (now : Int) : Bool × Bool × Option Int :=
  let r1 := tryAcquireRotationLock lock now
  let r2 := tryAcquireRotationLock r1.2 now
  (r1.1, r2.1, r2.2)

/-- The retry loop of `waitForRotationLock`: `env i` is the lock state seen
at retry `i`, attempted at `t0 + i * ROTATION_RETRY_MS`. -/
def waitAttempts : Nat → Nat → (Nat → Option Int) → Int → Bool
  | 0, _, _, _ => false
  | k + 1, i, env, t0 =>
      if (tryAcquireRotationLock (env i) (t0 + (i : Int) * ROTATION_RETRY_MS)).1 then true
      else waitAttempts k (i + 1) env t0

/-- `waitForRotationLock`: up to `ROTATION_MAX_RETRIES` spaced attempts;
`false` (degraded mode, no exception) when none succeeds. -/
def waitForRotationLock (env : Nat → Option Int) (t0 : Int) : Bool :=
  waitAttempts ROTATION_MAX_RETRIES 0 env t0

/-! ## Archive worker (`workers/archive.worker.ts`) -/
/-- Decimal digits of a nonnegative `Int` (JS `String(n)`), fuel-bounded. -/
def intToChars : Nat → Int → List Char
  | 0, _ => []
  | fuel + 1, n =>
      if n < 10 then [digitChar n] else intToChars fuel (n / 10) ++ [digitChar (n % 10)]

/-- `String(n)` for a collision counter `n`. -/
def natStr (n : Nat) : String := ⟨intToChars (n + 1) (n : Int)⟩

/-- The `counter`-th candidate archive filename: first `getArchiveFilename`,
then `` `${period}-archive-${counter}.tar.gz` `` for `counter = 1, 2, …`. -/
def archiveCandidate (period : String) : Nat → String
  | 0 => getArchiveFilename period
  | k + 1 => period ++ "-archive-" ++ natStr (k + 1) ++ ".tar.gz"

/-- The `while (await fileExists(archiveFullPath))` search: the first free
candidate, fuel-bounded (the candidates are pairwise distinct, so
`existing.length + 1` fuel always reaches a free one). -/
def findFreeArchiveName (existing : List String) (period : String) : Nat → Nat → String
  | 0, c => archiveCandidate period c
  | fuel + 1, c =>
      if archiveCandidate period c ∈ existing then
        findFreeArchiveName existing period fuel (c + 1)
      else archiveCandidate period c

/-- The archive filename chosen for `period` against the directory contents
`existing`. -/
def archiveNameFor (existing : List String) (period : String) : String :=
  findFreeArchiveName existing period (existing.length + 1) 0

/-- One created archive: its period key, its chosen `.tar.gz` name, and the
source log files bundled into it. -/
structure ArchiveBundle where
  period : String
  name : String
  files : List String
deriving DecidableEq

/-- First-occurrence set of the period keys (JS object keys). -/
def dedupJS : List String → List String
  | [] => []
  | x :: xs => if x ∈ dedupJS xs then dedupJS xs else x :: dedupJS xs

/-- The per-period loop of `runArchiveWorker`: walks the sorted closed
periods, carrying the archive directory's current names (each created
bundle joins them); returns the bundles created and the log files
deleted. -/
def archiveLoop (files : List String) (freq : ArchiveFrequency) :
    List String → List String → List ArchiveBundle × List String
  | [], _ => ([], [])
  | period :: rest, archNames =>
      let periodFiles := files.filter (fun f => getFilePeriod f freq = some period)
      if periodFiles = [] then archiveLoop files freq rest archNames
      else
        let name := archiveNameFor archNames period
        let r := archiveLoop files freq rest (name :: archNames)
        (⟨period, name, periodFiles⟩ :: r.1, periodFiles ++ r.2)

/-- One run of the archive worker over the log directory listing `logFiles`
and the archive directory listing `archFiles`: filter to `.log` files,
group by `getFilePeriod` skipping the current archive period, and archive
each closed period in sorted order. -/
def runArchiveWorker (logFiles archFiles : List String)
    (freq : ArchiveFrequency) (now : Int) : List ArchiveBundle × List String :=
  let files := logFiles.filter (fun f => strEndsWith f ".log")
  let currentPeriod := getCurrentArchivePeriod freq now
  let periods := dedupJS ((files.filterMap (fun f => getFilePeriod f freq)).filter
      (fun p => p ≠ currentPeriod))
  archiveLoop files freq (sortJS periods) archFiles

/-- Bundle after bundle, each name is the collision search's answer against
the archive directory contents at that point. -/
def namesSeq : List String → List ArchiveBundle → Bool
  | _, [] => true
  | acc, b :: bs =>
      decide (b.name = archiveNameFor acc b.period) && namesSeq (b.name :: acc) bs

/-- `parseInt`-style value of a digit list. -/
def charsVal (cs : List Char) : Int :=
  cs.foldl (fun a c => a * 10 + digitVal c) 0

/-! ## Theorems -/

lemma leapDay_bounds (y : Int) : 0 ≤ leapDay y ∧ leapDay y ≤ 1 := by
  simp only [leapDay]
  split <;> norm_num

/-- Concrete values of `daysBeforeMonthAdj` at each month index. -/
lemma adjEval (y : Int) :
    daysBeforeMonthAdj y 0 = 0 ∧ daysBeforeMonthAdj y 1 = 31 ∧
    daysBeforeMonthAdj y 2 = 59 + leapDay y ∧ daysBeforeMonthAdj y 3 = 90 + leapDay y ∧
    daysBeforeMonthAdj y 4 = 120 + leapDay y ∧ daysBeforeMonthAdj y 5 = 151 + leapDay y ∧
    daysBeforeMonthAdj y 6 = 181 + leapDay y ∧ daysBeforeMonthAdj y 7 = 212 + leapDay y ∧
    daysBeforeMonthAdj y 8 = 243 + leapDay y ∧ daysBeforeMonthAdj y 9 = 273 + leapDay y ∧
    daysBeforeMonthAdj y 10 = 304 + leapDay y ∧ daysBeforeMonthAdj y 11 = 334 + leapDay y ∧
    daysBeforeMonthAdj y 12 = 365 + leapDay y := by
  simp only [daysBeforeMonthAdj, daysBeforeMonth, leapDay]
  norm_num

lemma leapCount_succ (y : Int) :
    leapCount (y + 1) = leapCount y + (if isLeap y then 1 else 0) := by
  simp only [leapCount, isLeap]
  split
  · rename_i h
    simp only [Bool.or_eq_true, Bool.and_eq_true, beq_iff_eq, bne_iff_ne] at h
    omega
  · rename_i h
    simp only [Bool.or_eq_true, Bool.and_eq_true, beq_iff_eq, bne_iff_ne] at h
    omega

lemma daysBeforeYear_succ (y : Int) :
    daysBeforeYear (y + 1) = daysBeforeYear y + 365 + (if isLeap y then 1 else 0) := by
  simp only [daysBeforeYear, leapCount_succ]
  ring

/-- Evaluation of `monthsToDays` on an explicit year/month decomposition. -/
lemma monthsToDays_eq (q r : Int) (h0 : 0 ≤ r) (h12 : r < 12) :
    monthsToDays (12 * q + r) = daysBeforeYear q + daysBeforeMonthAdj q r := by
  have h1 : (12 * q + r) / 12 = q := by omega
  have h2 : (12 * q + r) % 12 = r := by omega
  simp only [monthsToDays, h1, h2]

/-- Each month has at least 28 days. -/
lemma monthsToDays_succ_ge (M : Int) :
    monthsToDays M + 28 ≤ monthsToDays (M + 1) := by
  obtain ⟨q, r, hM, hr0, hr12⟩ : ∃ q r, M = 12 * q + r ∧ 0 ≤ r ∧ r < 12 :=
    ⟨M / 12, M % 12, by omega, by omega, by omega⟩
  subst hM
  by_cases h11 : r = 11
  · subst h11
    have e : 12 * q + 11 + 1 = 12 * (q + 1) + 0 := by ring
    rw [e, monthsToDays_eq q 11 (by norm_num) (by norm_num),
        monthsToDays_eq (q + 1) 0 (by norm_num) (by norm_num), daysBeforeYear_succ]
    simp only [daysBeforeMonthAdj, daysBeforeMonth]
    norm_num
    split <;> omega
  · have e : 12 * q + r + 1 = 12 * q + (r + 1) := by ring
    rw [e, monthsToDays_eq q r hr0 hr12, monthsToDays_eq q (r + 1) (by omega) (by omega)]
    have hgoal : daysBeforeMonthAdj q r + 28 ≤ daysBeforeMonthAdj q (r + 1) := by
      interval_cases r
      all_goals try omega
      all_goals simp only [daysBeforeMonthAdj, daysBeforeMonth]
      all_goals norm_num
      all_goals try split <;> omega
    omega

/-- Going back `v` months moves the first-of-month day count back by at
least `28 v` days. -/
lemma monthsToDays_sub_ge (M : Int) (v : Nat) :
    monthsToDays (M - v) + 28 * v ≤ monthsToDays M := by
  induction v with
  | zero => simp
  | succ n ih =>
      have h := monthsToDays_succ_ge (M - n - 1)
      have e : M - (n : Int) - 1 + 1 = M - n := by ring
      rw [e] at h
      have e2 : (M - ((n + 1 : Nat) : Int)) = M - n - 1 := by push_cast; ring
      rw [e2]
      push_cast
      push_cast at ih
      omega

lemma daysBeforeYear_le_of_le {y y' : Int} (h : y ≤ y') :
    daysBeforeYear y ≤ daysBeforeYear y' := by
  obtain ⟨k, rfl⟩ : ∃ k : Nat, y' = y + k := ⟨(y' - y).toNat, by omega⟩
  clear h
  induction k with
  | zero => simp
  | succ n ih =>
      have h := daysBeforeYear_succ (y + n)
      have e : (y + ((n + 1 : Nat) : Int)) = y + n + 1 := by push_cast; ring
      rw [e]
      split at h <;> omega

lemma yearSearch_spec (fuel : Nat) (y d : Int)
    (hlo : daysBeforeYear y ≤ d) (hhi : d < daysBeforeYear (y + fuel)) :
    daysBeforeYear (yearSearch fuel y d) ≤ d ∧ d < daysBeforeYear (yearSearch fuel y d + 1) := by
  induction fuel generalizing y with
  | zero => simp at hhi; omega
  | succ n ih =>
      simp only [yearSearch]
      split
      · rename_i hle
        refine ih (y + 1) hle ?_
        have e : y + ((n + 1 : Nat) : Int) = (y + 1) + n := by push_cast; ring
        rw [e] at hhi
        exact hhi
      · rename_i hlt
        exact ⟨hlo, by omega⟩

lemma yearOfDays_spec (d : Int) (h0 : 0 ≤ d) (hhi : d < daysBeforeYear 10100) :
    daysBeforeYear (yearOfDays d) ≤ d ∧ d < daysBeforeYear (yearOfDays d + 1) := by
  have h00 : daysBeforeYear 0 = 0 := by decide
  exact yearSearch_spec 10100 0 d (by omega) (by norm_num; exact hhi)

lemma monthSearch_spec (y r : Int) (k : Nat) (h0 : 0 ≤ r)
    (hk : r < daysBeforeMonthAdj y (k + 1)) :
    0 ≤ monthSearch y r k ∧ monthSearch y r k ≤ k ∧
    daysBeforeMonthAdj y (monthSearch y r k) ≤ r ∧
    r < daysBeforeMonthAdj y (monthSearch y r k + 1) := by
  induction k with
  | zero =>
      have e0 : daysBeforeMonthAdj y 0 = 0 := (adjEval y).1
      simp only [monthSearch]
      norm_num at hk ⊢
      exact ⟨by omega, hk⟩
  | succ n ih =>
      simp only [monthSearch]
      split
      · rename_i hle
        push_cast at hk ⊢
        exact ⟨by omega, by omega, hle, hk⟩
      · rename_i hgt
        push_neg at hgt
        obtain ⟨ha, hb, hc, hd⟩ := ih hgt
        push_cast
        exact ⟨ha, by omega, hc, hd⟩

lemma adj_nonneg (y m : Int) (h0 : 0 ≤ m) (h11 : m ≤ 11) :
    0 ≤ daysBeforeMonthAdj y m := by
  obtain ⟨e0, e1, e2, e3, e4, e5, e6, e7, e8, e9, e10, e11, e12⟩ := adjEval y
  obtain ⟨hL0, hL1⟩ := leapDay_bounds y
  interval_cases m <;> omega

lemma adj_step_le (y m : Int) (h0 : 0 ≤ m) (h11 : m ≤ 11) :
    daysBeforeMonthAdj y (m + 1) ≤ daysBeforeMonthAdj y m + 31 := by
  obtain ⟨e0, e1, e2, e3, e4, e5, e6, e7, e8, e9, e10, e11, e12⟩ := adjEval y
  obtain ⟨hL0, hL1⟩ := leapDay_bounds y
  interval_cases m <;> norm_num <;> omega

lemma monthOfYearDay_spec (y r : Int) (h0 : 0 ≤ r)
    (hhi : r < 365 + leapDay y) :
    0 ≤ monthOfYearDay y r ∧ monthOfYearDay y r ≤ 11 ∧
    daysBeforeMonthAdj y (monthOfYearDay y r) ≤ r ∧
    r < daysBeforeMonthAdj y (monthOfYearDay y r + 1) := by
  have e12 := (adjEval y).2.2.2.2.2.2.2.2.2.2.2.2
  have hk : r < daysBeforeMonthAdj y ((11 : Nat) + 1 : Nat) := by
    norm_num
    omega
  obtain ⟨ha, hb, hc, hd⟩ := monthSearch_spec y r 11 h0 hk
  exact ⟨ha, by exact_mod_cast hb, hc, hd⟩

/-- The day count of a civil decomposition reassembles to the original day,
and the fields are within formatting range. -/
lemma civilFromDays_spec (d : Int) (h0 : 0 ≤ d) (hhi : d < daysBeforeYear 10100) :
    daysFromFields (civilFromDays d).1 ((civilFromDays d).2.1 - 1) (civilFromDays d).2.2 = d ∧
    0 ≤ (civilFromDays d).1 ∧ (civilFromDays d).1 < 10100 ∧
    1 ≤ (civilFromDays d).2.1 ∧ (civilFromDays d).2.1 ≤ 12 ∧
    1 ≤ (civilFromDays d).2.2 ∧ (civilFromDays d).2.2 ≤ 31 := by
  obtain ⟨hy1, hy2⟩ := yearOfDays_spec d h0 hhi
  set y := yearOfDays d with hy
  set r := d - daysBeforeYear y with hr
  have hy0 : 0 ≤ y := by
    by_contra hneg
    push_neg at hneg
    have := daysBeforeYear_le_of_le (show y + 1 ≤ 0 by omega)
    have h00 : daysBeforeYear 0 = 0 := by decide
    omega
  have hylt : y < 10100 := by
    by_contra hge
    push_neg at hge
    have := daysBeforeYear_le_of_le (show (10100 : Int) ≤ y by omega)
    omega
  have hylen : daysBeforeYear (y + 1) = daysBeforeYear y + 365 + leapDay y := by
    rw [daysBeforeYear_succ]
    simp only [leapDay]
  have hrlo : 0 ≤ r := by omega
  have hrhi : r < 365 + leapDay y := by omega
  obtain ⟨hm0, hm11, hmlo, hmhi⟩ := monthOfYearDay_spec y r hrlo hrhi
  set m := monthOfYearDay y r with hm
  have hcd : civilFromDays d = (y, m + 1, r - daysBeforeMonthAdj y m + 1) := by
    simp only [civilFromDays, ← hy, ← hr, ← hm]
  clear_value m
  clear_value r
  clear_value y
  have hdf : daysFromFields y m (r - daysBeforeMonthAdj y m + 1) = d := by
    simp only [daysFromFields, monthsToDays_eq y m (by omega) (by omega)]
    omega
  have hstep : daysBeforeMonthAdj y (m + 1) ≤ daysBeforeMonthAdj y m + 31 :=
    adj_step_le y m hm0 hm11
  have hadjlo : 0 ≤ daysBeforeMonthAdj y m := adj_nonneg y m hm0 hm11
  rw [hcd]
  dsimp only
  refine ⟨?_, hy0, hylt, by omega, by omega, by omega, by omega⟩
  simpa using hdf

/-! ### Format/parse roundtrips -/
lemma digitChar_spec (k : Int) (h0 : 0 ≤ k) (h9 : k ≤ 9) :
    isDigitChar (digitChar k) = true ∧ digitVal (digitChar k) = k := by
  interval_cases k <;> exact ⟨by decide, by decide⟩

lemma takeDigits_pad2 (n : Int) (rest : List Char) (h0 : 0 ≤ n) (h99 : n ≤ 99) :
    takeDigits 2 (pad2 n ++ rest) 0 = some (n, rest) := by
  obtain ⟨ha1, ha2⟩ := digitChar_spec (n / 10) (by omega) (by omega)
  obtain ⟨hb1, hb2⟩ := digitChar_spec (n % 10) (by omega) (by omega)
  simp only [pad2, List.cons_append, List.nil_append, takeDigits, ha1, hb1, if_true, ha2, hb2]
  norm_num
  omega

lemma takeDigits_pad4 (n : Int) (rest : List Char) (h0 : 0 ≤ n) (h99 : n ≤ 9999) :
    takeDigits 4 (pad4 n ++ rest) 0 = some (n, rest) := by
  obtain ⟨ha1, ha2⟩ := digitChar_spec (n / 1000) (by omega) (by omega)
  obtain ⟨hb1, hb2⟩ := digitChar_spec (n / 100 % 10) (by omega) (by omega)
  obtain ⟨hc1, hc2⟩ := digitChar_spec (n / 10 % 10) (by omega) (by omega)
  obtain ⟨hd1, hd2⟩ := digitChar_spec (n % 10) (by omega) (by omega)
  simp only [pad4, List.cons_append, List.nil_append, takeDigits, ha1, hb1, hc1, hd1, if_true,
    ha2, hb2, hc2, hd2]
  norm_num
  omega

lemma stripDotLog_append (cs : List Char) :
    stripDotLog (cs ++ ".log".data) = cs := by
  have h4 : (".log".data : List Char) = ['.', 'l', 'o', 'g'] := rfl
  simp only [stripDotLog, h4, dropLastN, List.reverse_append]
  norm_num

lemma dateMatch_iso (y mo d : Int) (rest : List Char)
    (hy0 : 0 ≤ y) (hy9 : y ≤ 9999) (hmo0 : 0 ≤ mo) (hmo9 : mo ≤ 99)
    (hd0 : 0 ≤ d) (hd9 : d ≤ 99) :
    dateMatch (pad4 y ++ '-' :: (pad2 mo ++ '-' :: pad2 d) ++ rest) = some (y, mo, d, rest) := by
  have e1 := takeDigits_pad4 y ('-' :: (pad2 mo ++ '-' :: pad2 d) ++ rest) hy0 hy9
  have e2 := takeDigits_pad2 mo (('-' :: pad2 d) ++ rest) hmo0 hmo9
  have e3 := takeDigits_pad2 d rest hd0 hd9
  simp only [List.append_assoc, List.cons_append] at e1 e2 e3 ⊢
  simp [dateMatch, e1, e2, e3, expectChar]

/-- Civil fields of a moment in time, with ranges and the reassembly
identity.  `hbound` keeps the year below 10000 (4-digit ISO years). -/
lemma civilOfMs_spec (now : Int) (h0 : 0 ≤ now)
    (hbound : daysOfMs now < daysBeforeYear 10000) :
    daysFromFields (civilFromDays (daysOfMs now)).1 ((civilFromDays (daysOfMs now)).2.1 - 1)
        (civilFromDays (daysOfMs now)).2.2 = daysOfMs now ∧
    0 ≤ (civilFromDays (daysOfMs now)).1 ∧ (civilFromDays (daysOfMs now)).1 ≤ 9999 ∧
    1 ≤ (civilFromDays (daysOfMs now)).2.1 ∧ (civilFromDays (daysOfMs now)).2.1 ≤ 12 ∧
    1 ≤ (civilFromDays (daysOfMs now)).2.2 ∧ (civilFromDays (daysOfMs now)).2.2 ≤ 31 := by
  have hd0 : 0 ≤ daysOfMs now := by
    simp only [daysOfMs, epochDays, msPerDay]
    omega
  have hmono : daysBeforeYear 10000 ≤ daysBeforeYear 10100 :=
    daysBeforeYear_le_of_le (by norm_num)
  obtain ⟨hre, hy0, _, hmo1, hmo12, hd1, hd31⟩ :=
    civilFromDays_spec (daysOfMs now) hd0 (by omega)
  have hyle : (civilFromDays (daysOfMs now)).1 ≤ 9999 := by
    have hys : (civilFromDays (daysOfMs now)).1 = yearOfDays (daysOfMs now) := rfl
    obtain ⟨hlo, _⟩ := yearOfDays_spec (daysOfMs now) hd0 (by omega)
    by_contra hgt
    push_neg at hgt
    have := daysBeforeYear_le_of_le (show (10000 : Int) ≤ yearOfDays (daysOfMs now) by omega)
    omega
  exact ⟨hre, hy0, hyle, hmo1, hmo12, hd1, hd31⟩

/-- Parsing the current rotation period's primary filename recovers the
period start, and `now` lies inside the period. -/
lemma currentRotationFile_parse (freq : RotationFrequency) (now : Int)
    (h0 : 0 ≤ now) (hbound : daysOfMs now < daysBeforeYear 10000) :
    ∃ ts, parseLogFilename (getCurrentRotationPeriod freq now ++ ".log") = some ts ∧
      ts ≤ now ∧ now < ts + rotationLenMs freq := by
  obtain ⟨hre, hy0, hy9, hmo1, hmo12, hd1, hd31⟩ := civilOfMs_spec now h0 hbound
  set c := civilFromDays (daysOfMs now) with hc
  clear_value c
  obtain ⟨y, mo, dd⟩ := c
  simp only at hre hy0 hy9 hmo1 hmo12 hd1 hd31
  have hiso : isoDateOf now = pad4 y ++ '-' :: (pad2 mo ++ '-' :: pad2 dd) := by
    simp only [isoDateOf, isoDateOfDays, ← hc]
  cases freq with
  | daily =>
      refine ⟨(now / msPerDay) * msPerDay, ?_, by simp only [msPerDay]; omega,
        by simp only [rotationLenMs, msPerDay]; omega⟩
      have hassoc : (getCurrentRotationPeriod .daily now ++ ".log").data =
          (pad4 y ++ '-' :: (pad2 mo ++ '-' :: pad2 dd)) ++ ".log".data := by
        simp [getCurrentRotationPeriod, hiso]
      have hbase : stripDotLog ((getCurrentRotationPeriod .daily now ++ ".log").data) =
          pad4 y ++ '-' :: (pad2 mo ++ '-' :: pad2 dd) := by
        rw [hassoc, stripDotLog_append]
      have hdm := dateMatch_iso y mo dd [] hy0 hy9 (by omega) (by omega) (by omega) (by omega)
      simp only [List.append_nil] at hdm
      simp only [parseLogFilename, hbase, hdm]
      simp only [if_pos rfl, if_true, Option.some_inj, jsTime]
      simp only [daysOfMs] at hre
      simp only [msPerDay, epochDays] at *
      omega
  | hourly =>
      have hh0 : 0 ≤ hourOf now := by simp only [hourOf]; omega
      have hh23 : hourOf now ≤ 23 := by simp only [hourOf]; omega
      obtain ⟨hd1c, hd2c⟩ := digitChar_spec (hourOf now / 10) (by omega) (by omega)
      obtain ⟨he1c, he2c⟩ := digitChar_spec (hourOf now % 10) (by omega) (by omega)
      refine ⟨(now / 3600000) * 3600000, ?_, by omega, by simp only [rotationLenMs]; omega⟩
      have hassoc : (getCurrentRotationPeriod .hourly now ++ ".log").data =
          (pad4 y ++ '-' :: (pad2 mo ++ '-' :: pad2 dd) ++
            '~' :: pad2 (hourOf now)) ++ ".log".data := by
        simp [getCurrentRotationPeriod, hiso]
      have hbase : stripDotLog ((getCurrentRotationPeriod .hourly now ++ ".log").data) =
          pad4 y ++ '-' :: (pad2 mo ++ '-' :: pad2 dd) ++ '~' :: pad2 (hourOf now) := by
        rw [hassoc, stripDotLog_append]
      have hdm := dateMatch_iso y mo dd ('~' :: pad2 (hourOf now)) hy0 hy9 (by omega) (by omega)
        (by omega) (by omega)
      have hpad : pad2 (hourOf now) =
          [digitChar (hourOf now / 10), digitChar (hourOf now % 10)] := rfl
      rw [hpad] at hdm hbase
      simp only [parseLogFilename, hbase, hdm]
      rw [if_pos (⟨hd1c, he1c⟩ : _ ∧ _)]
      simp only [Option.some_inj, jsTime, hd2c, he2c]
      simp only [daysOfMs] at hre
      simp only [hourOf] at *
      simp only [msPerDay, epochDays] at *
      omega

/-- A valid cutoff lies at least one unit-gap before `now`. -/
lemma getCutoffDate_gap (now v : Int) (u : DurationUnit) (c : Int)
    (hv : 1 ≤ v) (h0 : 0 ≤ now) (hbound : daysOfMs now < daysBeforeYear 10000)
    (hc : getCutoffDate now v u = some c) :
    c ≤ now - minGapMs u := by
  obtain ⟨hre, hy0, hy9, hmo1, hmo12, hd1, hd31⟩ := civilOfMs_spec now h0 hbound
  have hnoweq : now = (daysOfMs now - epochDays) * msPerDay + now % msPerDay := by
    simp only [daysOfMs, msPerDay] at *
    omega
  simp only [getCutoffDate] at hc
  split at hc
  · exact absurd hc (by simp)
  rename_i hrange
  cases u with
  | h =>
      simp only [Option.some_inj] at hc
      simp only [minGapMs]
      omega
  | d =>
      simp only [Option.some_inj] at hc
      simp only [minGapMs, msPerDay] at *
      omega
  | w =>
      simp only [Option.some_inj] at hc
      simp only [minGapMs, msPerDay] at *
      omega
  | m =>
      simp only [Option.some_inj] at hc
      set cd := civilFromDays (daysOfMs now) with hcd
      have hgap := monthsToDays_sub_ge (12 * cd.1 + (cd.2.1 - 1)) v.toNat
      have hvt : ((v.toNat : Int)) = v := by omega
      rw [hvt] at hgap
      simp only [daysFromFields] at hre hc
      have he : 12 * cd.1 + (cd.2.1 - 1 - v) = 12 * cd.1 + (cd.2.1 - 1) - v := by ring
      rw [he] at hc
      simp only [minGapMs, msPerDay] at *
      omega
  | y =>
      simp only [Option.some_inj] at hc
      set cd := civilFromDays (daysOfMs now) with hcd
      have hgap := monthsToDays_sub_ge (12 * cd.1 + (cd.2.1 - 1)) (12 * v).toNat
      have hvt : (((12 * v).toNat : Int)) = 12 * v := by omega
      rw [hvt] at hgap
      simp only [daysFromFields] at hre hc
      have he : 12 * (cd.1 - v) + (cd.2.1 - 1) = 12 * cd.1 + (cd.2.1 - 1) - 12 * v := by ring
      rw [he] at hc
      simp only [minGapMs, msPerDay] at *
      omega

/-- Facts extracted from a successful validation: a positive duration value,
and no hour-unit retention with daily rotation. -/
lemma validateConstraints_retention_facts (ropts : ResolvedTransportOptions)
    (dur : String) (v : Int) (u : DurationUnit)
    (hen : ropts.retention.enabled = true) (hdur : ropts.retention.duration = some dur)
    (hpd : parseDuration dur = some ⟨v, u⟩)
    (hvalid : validateConstraints ropts = .ok ()) :
    1 ≤ v ∧ (u = .h → ropts.rotation.frequency = .hourly) := by
  simp only [validateConstraints, hen, hdur, hpd] at hvalid
  split at hvalid
  · exact absurd hvalid (by simp [throw, throwThe, MonadExceptOf.throw])
  split at hvalid
  · exact absurd hvalid (by simp [throw, throwThe, MonadExceptOf.throw])
  split at hvalid
  · exact absurd hvalid (by simp [throw, throwThe, MonadExceptOf.throw])
  split at hvalid
  · exact absurd hvalid (by simp [throw, throwThe, MonadExceptOf.throw])
  rename_i h1 h2 h3 h4
  constructor
  · have hrot : 1 ≤ frequencyToHours (rotationFrequencyToArchive ropts.rotation.frequency) := by
      cases ropts.rotation.frequency <;> simp [frequencyToHours, rotationFrequencyToArchive]
    have hge : frequencyToHours (rotationFrequencyToArchive ropts.rotation.frequency) ≤
        durationToHours v u := by omega
    cases u <;> simp only [durationToHours] at hge <;> omega
  · intro hu
    subst hu
    by_contra hfr
    have : ropts.rotation.frequency = .daily := by
      cases hh : ropts.rotation.frequency
      · exact absurd hh hfr
      · rfl
    exact h4 ⟨rfl, this⟩

/-- C3: For every configured retention duration, one run of the retention
worker deletes exactly the `.log` files of the log directory and `.tar.gz`
files of the archive directory whose filename-embedded timestamp parses and
is strictly before the cutoff instant; files whose names do not parse are
never deleted; the file of the currently active rotation period is never
deleted; and with duration `"7d"`, a log file dated 10 days ago is deleted
while one dated 3 days ago and today's file are preserved. -/
theorem retention_deletes_exactly_expired (logFiles archiveFiles : List String)
    (dur : String) (v : Int) (u : DurationUnit) (cutoff : Int) (now : Int)
    (freq : RotationFrequency) (ropts : ResolvedTransportOptions)
    (hnow0 : 0 ≤ now) (hnow9 : daysOfMs now < daysBeforeYear 10000)
    (hpd : parseDuration dur = some ⟨v, u⟩)
    (hcut : getCutoffDate now v u = some cutoff)
    (hen : ropts.retention.enabled = true) (hdur : ropts.retention.duration = some dur)
    (hfreq : ropts.rotation.frequency = freq)
    (hvalid : validateConstraints ropts = .ok ()) :
    (∀ f, f ∈ (runRetentionWorker logFiles archiveFiles (some dur) now).deletedLogs ↔
      f ∈ logFiles ∧ strEndsWith f ".log" = true ∧
        ∃ ts, parseLogFilename f = some ts ∧ ts < cutoff) ∧
    (∀ f, f ∈ (runRetentionWorker logFiles archiveFiles (some dur) now).deletedArchives ↔
      f ∈ archiveFiles ∧ strEndsWith f ".tar.gz" = true ∧
        ∃ ts, parseArchiveFilename f = some ts ∧ ts < cutoff) ∧
    (∀ f, parseLogFilename f = none →
      f ∉ (runRetentionWorker logFiles archiveFiles (some dur) now).deletedLogs) ∧
    (getCurrentRotationPeriod freq now ++ ".log") ∉
      (runRetentionWorker logFiles archiveFiles (some dur) now).deletedLogs ∧
    (runRetentionWorker ["2026-10-01.log", "2026-10-08.log", "2026-10-11.log"] []
        (some "7d") (jsTime 2026 9 11 12 0 0 0)).deletedLogs = ["2026-10-01.log"] := by
  obtain ⟨hv1, hu⟩ := validateConstraints_retention_facts ropts dur v u hen hdur hpd hvalid
  have hrun : runRetentionWorker logFiles archiveFiles (some dur) now =
      ⟨(logFiles.filter (fun f => strEndsWith f ".log")).filter
          (fun f => match parseLogFilename f, getCutoffDate now v u with
            | some a, some c => decide (a < c)
            | _, _ => false),
       (archiveFiles.filter (fun f => strEndsWith f ".tar.gz")).filter
          (fun f => match parseArchiveFilename f, getCutoffDate now v u with
            | some a, some c => decide (a < c)
            | _, _ => false)⟩ := by
    simp only [runRetentionWorker, hpd]
  have hmemL : ∀ f, f ∈ (runRetentionWorker logFiles archiveFiles (some dur) now).deletedLogs ↔
      f ∈ logFiles ∧ strEndsWith f ".log" = true ∧
        ∃ ts, parseLogFilename f = some ts ∧ ts < cutoff := by
    intro f
    rw [hrun]
    simp only [List.mem_filter, hcut]
    constructor
    · rintro ⟨⟨hmem, hext⟩, hlt⟩
      refine ⟨hmem, hext, ?_⟩
      revert hlt
      match parseLogFilename f with
      | some a => intro hlt; exact ⟨a, rfl, by simpa using hlt⟩
      | none => intro hlt; exact absurd hlt (by simp)
    · rintro ⟨hmem, hext, ts, hts, hlt⟩
      refine ⟨⟨hmem, hext⟩, ?_⟩
      rw [hts]
      simpa using hlt
  have hmemA : ∀ f, f ∈ (runRetentionWorker logFiles archiveFiles (some dur) now).deletedArchives ↔
      f ∈ archiveFiles ∧ strEndsWith f ".tar.gz" = true ∧
        ∃ ts, parseArchiveFilename f = some ts ∧ ts < cutoff := by
    intro f
    rw [hrun]
    simp only [List.mem_filter, hcut]
    constructor
    · rintro ⟨⟨hmem, hext⟩, hlt⟩
      refine ⟨hmem, hext, ?_⟩
      revert hlt
      match parseArchiveFilename f with
      | some a => intro hlt; exact ⟨a, rfl, by simpa using hlt⟩
      | none => intro hlt; exact absurd hlt (by simp)
    · rintro ⟨hmem, hext, ts, hts, hlt⟩
      refine ⟨⟨hmem, hext⟩, ?_⟩
      rw [hts]
      simpa using hlt
  refine ⟨hmemL, hmemA, ?_, ?_, by decide⟩
  · intro f hnone hmem
    obtain ⟨_, _, ts, hts, _⟩ := (hmemL f).1 hmem
    rw [hnone] at hts
    exact absurd hts (by simp)
  · intro hmem
    obtain ⟨_, _, ts, hts, hlt⟩ := (hmemL _).1 hmem
    obtain ⟨ts', hts', hle, hlen⟩ := currentRotationFile_parse freq now hnow0 hnow9
    rw [hts'] at hts
    obtain rfl : ts' = ts := by simpa using hts
    have hgap := getCutoffDate_gap now v u cutoff hv1 hnow0 hnow9 hcut
    have hrotgap : rotationLenMs freq ≤ minGapMs u := by
      cases u with
      | h =>
          have hfh : freq = .hourly := by rw [← hfreq]; exact hu rfl
          subst hfh
          simp [rotationLenMs, minGapMs]
      | d => cases freq <;> simp [rotationLenMs, minGapMs, msPerDay] <;> norm_num
      | w => cases freq <;> simp [rotationLenMs, minGapMs, msPerDay] <;> norm_num
      | m => cases freq <;> simp [rotationLenMs, minGapMs, msPerDay] <;> norm_num
      | y => cases freq <;> simp [rotationLenMs, minGapMs, msPerDay] <;> norm_num
    omega

set_option maxRecDepth 8000 in
/-- Witness for C3 at a concrete configuration (daily rotation, daily
archive, retention `"7d"`, now = 2026-10-11T12:00Z). -/
theorem retention_deletes_exactly_expired_witness :
    ("2026-10-11" ++ ".log") ∉
      (runRetentionWorker ["2026-10-01.log", "2026-10-08.log", "2026-10-11.log"] []
        (some "7d") (jsTime 2026 9 11 12 0 0 0)).deletedLogs ∧
    (runRetentionWorker ["2026-10-01.log", "2026-10-08.log", "2026-10-11.log"] []
        (some "7d") (jsTime 2026 9 11 12 0 0 0)).deletedLogs = ["2026-10-01.log"] := by
  have h := retention_deletes_exactly_expired
    ["2026-10-01.log", "2026-10-08.log", "2026-10-11.log"] []
    "7d" 7 .d (jsTime 2026 9 4 12 0 0 0) (jsTime 2026 9 11 12 0 0 0) .daily
    ⟨"logs", ⟨100, .daily, false⟩, ⟨true, "archives", .daily, true, false⟩,
      ⟨true, some "7d", false⟩⟩
    (by decide) (by decide) (by decide) (by decide) (by decide) (by decide) (by decide)
    rfl
  have hcur : getCurrentRotationPeriod .daily (jsTime 2026 9 11 12 0 0 0) = "2026-10-11" := by
    decide
  refine ⟨?_, h.2.2.2.2⟩
  rw [← hcur]
  exact h.2.2.2.1

/-- C4: option resolution raises a fatal configuration error whenever the
ordering `retention duration ≥ archive cadence ≥ rotation cadence` is
violated (for the components that are enabled); in particular rotation
"daily" with archive "hourly" is rejected, and archive "monthly" with
retention duration "1w" is rejected, both synchronously at resolution
time. -/
theorem config_ordering_violations_rejected (ropts : ResolvedTransportOptions)
    (dur : String) (v : Int) (u : DurationUnit)
    (hen : ropts.retention.enabled = true) (hdur : ropts.retention.duration = some dur)
    (hpd : parseDuration dur = some ⟨v, u⟩) :
    (ropts.archive.enabled = true →
      frequencyToHours ropts.archive.frequency <
        frequencyToHours (rotationFrequencyToArchive ropts.rotation.frequency) →
      ∃ e, validateConstraints ropts = .error e) ∧
    (ropts.archive.enabled = true →
      durationToHours v u < frequencyToHours ropts.archive.frequency →
      ∃ e, validateConstraints ropts = .error e) ∧
    (durationToHours v u <
        frequencyToHours (rotationFrequencyToArchive ropts.rotation.frequency) →
      ∃ e, validateConstraints ropts = .error e) ∧
    (∃ e, resolveOptions ⟨"logs", none, some .daily, none, some true, none, some .hourly, none, none, none, none, none⟩ = .error e) ∧
    (∃ e, resolveOptions ⟨"logs", none, none, none, none, none, some .monthly, none, none, none, some "1w", none⟩ = .error e) := by
  have hthrow : ∀ (e : String), (throw e : Except String Unit) = .error e := fun _ => rfl
  refine ⟨?_, ?_, ?_, ⟨_, rfl⟩, ⟨_, rfl⟩⟩
  · intro hae hlt
    refine ⟨"archive.frequency must be >= rotation.frequency", ?_⟩
    simp only [validateConstraints, if_pos (⟨hae, hlt⟩ : _ ∧ _), hthrow]
  · intro hae hlt
    simp only [validateConstraints, hen, hdur, hpd]
    split
    · exact ⟨_, by rw [hthrow]⟩
    rw [if_pos (⟨hae, hlt⟩ : _ ∧ _)]
    exact ⟨_, by rw [hthrow]⟩
  · intro hlt
    simp only [validateConstraints, hen, hdur, hpd]
    split
    · exact ⟨_, by rw [hthrow]⟩
    split
    · exact ⟨_, by rw [hthrow]⟩
    all_goals try exact ⟨_, by rw [hthrow]⟩
    all_goals rename_i hc
    all_goals exact absurd hlt hc

/-- Witness for C4: a concrete enabled configuration violating each ordering
constraint is rejected. -/
theorem config_ordering_violations_rejected_witness :
    (∃ e, validateConstraints
      ⟨"logs", ⟨100, .daily, false⟩, ⟨true, "archives", .hourly, true, false⟩,
        ⟨true, some "30d", false⟩⟩ = .error e) ∧
    (∃ e, validateConstraints
      ⟨"logs", ⟨100, .daily, false⟩, ⟨true, "archives", .monthly, true, false⟩,
        ⟨true, some "1w", false⟩⟩ = .error e) := by
  have h1 := config_ordering_violations_rejected
    ⟨"logs", ⟨100, .daily, false⟩, ⟨true, "archives", .hourly, true, false⟩,
      ⟨true, some "30d", false⟩⟩ "30d" 30 .d rfl rfl (by decide)
  have h2 := config_ordering_violations_rejected
    ⟨"logs", ⟨100, .daily, false⟩, ⟨true, "archives", .monthly, true, false⟩,
      ⟨true, some "1w", false⟩⟩ "1w" 1 .w rfl rfl (by decide)
  exact ⟨h1.1 rfl (by decide), h2.2.1 rfl (by decide)⟩

set_option maxRecDepth 20000 in
/-- C1 (refuted): draining a queue that contains two equal payload strings
writes the payload three times.  The filler and the first copy fill the
current file to 196/200 bytes; the second copy trips the size trigger, and
the re-queue `pending.slice(pending.indexOf(line))` restarts from the
*first* occurrence of the equal payload, which has already been written.
After the triggered rotation the drain completes, having handed the payload
to the sink three times for two submissions. -/
theorem processPendingWrites_duplicates_equal_payloads :
    dupScenario.st.pendingWrites.count dupLine = 2 ∧
    ((processPendingWrites 2 [jsTime 2026 9 11 13 0 0 0] dupScenario).written.map
        Prod.snd).count dupLine = 3 ∧
    (processPendingWrites 2 [jsTime 2026 9 11 13 0 0 0] dupScenario).st.pendingWrites = [] := by
  decide

set_option maxRecDepth 20000 in
/-- C5 (refuted as stated): `generateOverflowFilename` never inspects the
directory; at 2026-10-11T12:30:45.123Z, with no pre-existing file anywhere,
the synthesized name already carries the `~123` milliseconds component
instead of ending at `~HH-mm-ss`. -/
theorem generateOverflowFilename_always_has_millis_counterexample :
    generateOverflowFilename "logs" (jsTime 2026 9 11 12 30 45 123) =
      "logs/2026-10-11~12-30-45~123.log" ∧
    generateOverflowFilename "logs" (jsTime 2026 9 11 12 30 45 123) ≠
      "logs/2026-10-11~12-30-45.log" := by
  constructor
  · decide
  · decide

/-- C5 (amended): every synthesized overflow filename unconditionally ends
in `~mmm.log` where `mmm` is the current millisecond field, and no numeric
disambiguator is ever appended (the name is a pure function of the current
instant). -/
theorem generateOverflowFilename_shape (logDir : String) (now : Int) (h0 : 0 ≤ now) :
    ∃ c1 c2 c3, isDigitChar c1 = true ∧ isDigitChar c2 = true ∧ isDigitChar c3 = true ∧
      (digitVal c1 * 100 + digitVal c2 * 10 + digitVal c3) = millisOf now ∧
      (generateOverflowFilename logDir now).data =
        (logDir ++ "/" ++ ⟨isoDateOf now⟩ ++ "~" ++ ⟨pad2 (hourOf now)⟩ ++ "-" ++
          ⟨pad2 (minuteOf now)⟩ ++ "-" ++ ⟨pad2 (secondOf now)⟩).data ++
          '~' :: [c1, c2, c3] ++ ".log".data := by
  have hms0 : 0 ≤ millisOf now := by simp only [millisOf]; omega
  have hms9 : millisOf now ≤ 999 := by simp only [millisOf]; omega
  obtain ⟨ha1, ha2⟩ := digitChar_spec (millisOf now / 100) (by omega) (by omega)
  obtain ⟨hb1, hb2⟩ := digitChar_spec (millisOf now / 10 % 10) (by omega) (by omega)
  obtain ⟨hc1, hc2⟩ := digitChar_spec (millisOf now % 10) (by omega) (by omega)
  refine ⟨digitChar (millisOf now / 100), digitChar (millisOf now / 10 % 10),
    digitChar (millisOf now % 10), ha1, hb1, hc1, by rw [ha2, hb2, hc2]; omega, ?_⟩
  simp [generateOverflowFilename, pad3]

set_option maxRecDepth 20000 in
/-- Witness for the amended C5 at 2026-10-11T12:30:45.123Z. -/
theorem generateOverflowFilename_shape_witness :
    ∃ c1 c2 c3, isDigitChar c1 = true ∧ isDigitChar c2 = true ∧ isDigitChar c3 = true ∧
      (digitVal c1 * 100 + digitVal c2 * 10 + digitVal c3) =
        millisOf (jsTime 2026 9 11 12 30 45 123) ∧
      (generateOverflowFilename "logs" (jsTime 2026 9 11 12 30 45 123)).data =
        ("logs" ++ "/" ++ ⟨isoDateOf (jsTime 2026 9 11 12 30 45 123)⟩ ++ "~" ++
          ⟨pad2 (hourOf (jsTime 2026 9 11 12 30 45 123))⟩ ++ "-" ++
          ⟨pad2 (minuteOf (jsTime 2026 9 11 12 30 45 123))⟩ ++ "-" ++
          ⟨pad2 (secondOf (jsTime 2026 9 11 12 30 45 123))⟩).data ++
          '~' :: [c1, c2, c3] ++ ".log".data :=
  generateOverflowFilename_shape "logs" (jsTime 2026 9 11 12 30 45 123) (by decide)

/-- C8: a size-triggered `rotate` that, after (re)reading the committed
size under the lock, finds the current file below 98% of the max aborts the
rotation: it only resyncs the byte estimate and the disk-check sampling
state (and recomputes the period key, which happens before the branch); the
current file path, the pending queue, the learned check interval, and the
filesystem (in particular: no new file) are all untouched. -/
theorem rotate_size_abort_frame (st : TransportState) (fs : FS) (now : Int)
    (hmax : st.maxSizeBytes > 0)
    (hsmall : getFileSizeSync fs st.currentFilePath * 50 < st.maxSizeBytes * 49) :
    (rotate .size now st fs).2 = fs ∧
    (rotate .size now st fs).1.currentFilePath = st.currentFilePath ∧
    (rotate .size now st fs).1.pendingWrites = st.pendingWrites ∧
    (rotate .size now st fs).1.nextCheckIntervalMs = st.nextCheckIntervalMs ∧
    (rotate .size now st fs).1.isRotating = st.isRotating ∧
    (rotate .size now st fs).1.maxSizeBytes = st.maxSizeBytes ∧
    (rotate .size now st fs).1.bytesWritten = getFileSizeSync fs st.currentFilePath ∧
    (rotate .size now st fs).1.lastDiskSize = getFileSizeSync fs st.currentFilePath ∧
    (rotate .size now st fs).1.lastDiskCheckTime = now ∧
    (rotate .size now st fs).1.currentPeriod =
      getCurrentRotationPeriod st.rotationFrequency now := by
  have hr : rotate .size now st fs =
      ({ st with currentPeriod := getCurrentRotationPeriod st.rotationFrequency now,
                 bytesWritten := getFileSizeSync fs st.currentFilePath,
                 lastDiskSize := getFileSizeSync fs st.currentFilePath,
                 lastDiskCheckTime := now }, fs) := by
    simp only [rotate]
    rw [if_pos ⟨trivial, hmax, hsmall⟩]
  rw [hr]
  exact ⟨rfl, rfl, rfl, rfl, rfl, rfl, rfl, rfl, rfl, rfl⟩

set_option maxRecDepth 20000 in
/-- Witness for C8: a 95%-full 100-byte file is left alone. -/
theorem rotate_size_abort_frame_witness :
    (rotate .size 1791720000000
      ⟨"logs", .daily, 100, "2026-10-11", "logs/2026-10-11.log", 95, false, [], 0, 95, 500⟩
      [("logs/2026-10-11.log", 95)]).2 = [("logs/2026-10-11.log", 95)] ∧
    (rotate .size 1791720000000
      ⟨"logs", .daily, 100, "2026-10-11", "logs/2026-10-11.log", 95, false, [], 0, 95, 500⟩
      [("logs/2026-10-11.log", 95)]).1.currentFilePath = "logs/2026-10-11.log" := by
  have h := rotate_size_abort_frame
    ⟨"logs", .daily, 100, "2026-10-11", "logs/2026-10-11.log", 95, false, [], 0, 95, 500⟩
    [("logs/2026-10-11.log", 95)] 1791720000000 (by decide) (by decide)
  exact ⟨h.1, h.2.1⟩

/-- C10: with `maxSize = 0` size-based rotation is fully disabled: `write`
never starts a `"size"` rotation, the drain loop never triggers a
re-rotation, and file selection (as invoked outside size rotations, i.e.
without `excludeCurrentFile`) always returns the current period's primary
file. -/
theorem maxSize_zero_disables_size_rotation (w : World) (data : String) (now : Int)
    (hmax : w.st.maxSizeBytes = 0) :
    (write data now w).2.2 ≠ some .size ∧
    (∀ pending rest w', w'.st.maxSizeBytes = 0 → ∀ w'',
      drainPass pending rest w' ≠ .trigger w'') ∧
    (∀ fs now', findAvailableLogPath w.st fs false now' =
      getLogPath w.st.logDir w.st.currentPeriod) := by
  refine ⟨?_, ?_, ?_⟩
  · have hac : adaptiveCheck w now = (w.st, false) := by
      simp only [adaptiveCheck]
      rw [if_neg]
      rintro ⟨hpos, -⟩
      rw [hmax] at hpos
      exact lt_irrefl _ hpos
    simp only [write, hac]
    split
    · simp
    · simp only [hmax]
      norm_num
      split <;> simp
  · intro pending rest
    induction rest with
    | nil => intro w' _ w''; simp [drainPass]
    | cons line tl ih =>
        intro w' hw' w''
        simp only [drainPass, hw']
        norm_num
        exact ih _ (by simp [sonicWrite]) w''
  · intro fs now'
    simp only [findAvailableLogPath, getLogPath]
    rw [if_pos]
    exact ⟨by simp, Or.inl hmax⟩

/-- Witness for C10 on a concrete empty-directory state. -/
theorem maxSize_zero_disables_size_rotation_witness :
    (write "hello" 1791720000000
      ⟨⟨"logs", .daily, 0, "2026-10-11", "logs/2026-10-11.log", 0, false, [], 0, 0, 500⟩,
        [], []⟩).2.2 ≠ some .size ∧
    findAvailableLogPath
      ⟨"logs", .daily, 0, "2026-10-11", "logs/2026-10-11.log", 0, false, [], 0, 0, 500⟩
      [] false 1791720000000 = getLogPath "logs" "2026-10-11" := by
  have h := maxSize_zero_disables_size_rotation
    ⟨⟨"logs", .daily, 0, "2026-10-11", "logs/2026-10-11.log", 0, false, [], 0, 0, 500⟩, [], []⟩
    "hello" 1791720000000 (by decide)
  exact ⟨h.1, h.2.2 [] 1791720000000⟩

lemma clamp_bounds (x : Rat) :
    MIN_CHECK_INTERVAL_MS ≤ max MIN_CHECK_INTERVAL_MS (min MAX_CHECK_INTERVAL_MS x) ∧
    max MIN_CHECK_INTERVAL_MS (min MAX_CHECK_INTERVAL_MS x) ≤ MAX_CHECK_INTERVAL_MS := by
  constructor
  · exact le_max_left _ _
  · refine max_le ?_ (min_le_left _ _)
    simp only [MIN_CHECK_INTERVAL_MS, MAX_CHECK_INTERVAL_MS]
    norm_num

lemma adaptiveCheck_interval (w : World) (now : Int) :
    ((adaptiveCheck w now).1).nextCheckIntervalMs = w.st.nextCheckIntervalMs ∨
    ∃ x, ((adaptiveCheck w now).1).nextCheckIntervalMs =
      max MIN_CHECK_INTERVAL_MS (min MAX_CHECK_INTERVAL_MS x) := by
  simp only [adaptiveCheck]
  split
  · dsimp only
    exact (ite_eq_or_eq _ _ _).elim (fun he => Or.inr ⟨_, he⟩) Or.inl
  · exact Or.inl rfl

lemma write_preserves_interval (d : String) (t : Int) (w : World)
    (h : intervalInv w) : intervalInv (write d t w).1 := by
  simp only [intervalInv, write] at h ⊢
  have hbound : MIN_CHECK_INTERVAL_MS ≤ ((adaptiveCheck w t).1).nextCheckIntervalMs ∧
      ((adaptiveCheck w t).1).nextCheckIntervalMs ≤ MAX_CHECK_INTERVAL_MS := by
    rcases adaptiveCheck_interval w t with he | ⟨x, he⟩
    · rw [he]; exact h
    · rw [he]; exact clamp_bounds x
  split
  · exact h
  split <;> split <;> exact hbound

lemma rotate_preserves_interval (r : RotateReason) (t : Int) (st : TransportState) (fs : FS) :
    ((rotate r t st fs).1).nextCheckIntervalMs = st.nextCheckIntervalMs := by
  simp only [rotate]
  split
  · rfl
  split
  · rfl
  · rfl

lemma drainPass_preserves_interval (pending : List String) :
    ∀ (rest : List String) (w : World),
      (match drainPass pending rest w with
        | .done w' => w'.st.nextCheckIntervalMs
        | .trigger w' => w'.st.nextCheckIntervalMs) = w.st.nextCheckIntervalMs := by
  intro rest
  induction rest with
  | nil => intro w; simp [drainPass]
  | cons line tl ih =>
      intro w
      by_cases hc : w.st.maxSizeBytes > 0 ∧ w.st.bytesWritten + utf8Len line ≥ w.st.maxSizeBytes
      · rw [drainPass, if_pos hc]
      · rw [drainPass, if_neg hc]
        exact ih _

lemma processPendingWrites_preserves_interval :
    ∀ (fuel : Nat) (times : List Int) (w : World), intervalInv w →
      intervalInv (processPendingWrites fuel times w) := by
  intro fuel
  induction fuel with
  | zero =>
      intro times w h
      simp only [processPendingWrites]
      have hd := drainPass_preserves_interval w.st.pendingWrites w.st.pendingWrites
        { w with st.pendingWrites := [] }
      split at hd
      · rename_i w' heq
        rw [heq]
        simpa [intervalInv, hd] using h
      · rename_i w' heq
        rw [heq]
        simp only [intervalInv] at h ⊢
        simpa [hd] using h
  | succ n ih =>
      intro times w h
      simp only [processPendingWrites]
      have hd := drainPass_preserves_interval w.st.pendingWrites w.st.pendingWrites
        { w with st.pendingWrites := [] }
      split at hd
      · rename_i w' heq
        rw [heq]
        simpa [intervalInv, hd] using h
      · rename_i w' heq
        rw [heq]
        match times with
        | [] =>
            simp only [intervalInv] at h ⊢
            simpa [hd] using h
        | t :: ts =>
            refine ih ts _ ?_
            simp only [intervalInv, rotate_preserves_interval] at h ⊢
            simpa [hd] using h

lemma stepOp_preserves_interval (w : World) (op : EngineOp) (h : intervalInv w) :
    intervalInv (stepOp w op) := by
  cases op with
  | writeOp d t => exact write_preserves_interval d t w h
  | rotateOp r t =>
      simp only [intervalInv, stepOp, rotate_preserves_interval] at h ⊢
      exact h
  | drainOp fuel ts => exact processPendingWrites_preserves_interval fuel ts w h
  | endRotationOp => exact h
  | extOp fs => exact h

/-- C9: along every sequence of engine operations the adaptive next-check
interval stays within [50 ms, 2000 ms]: the initial value 500 is inside the
bounds, every update clamps into the bounds, and a rotation carries the
learned interval over unchanged. -/
theorem adaptive_interval_bounded (w : World) (ops : List EngineOp) (h : intervalInv w) :
    intervalInv (runOps w ops) ∧
    (MIN_CHECK_INTERVAL_MS ≤ NEXT_CHECK_INTERVAL_INIT ∧
      NEXT_CHECK_INTERVAL_INIT ≤ MAX_CHECK_INTERVAL_MS) ∧
    (∀ r t st fs, ((rotate r t st fs).1).nextCheckIntervalMs = st.nextCheckIntervalMs) := by
  refine ⟨?_, ?_, fun r t st fs => rotate_preserves_interval r t st fs⟩
  · induction ops generalizing w with
    | nil => exact h
    | cons op rest ih =>
        simp only [runOps, List.foldl_cons] at *
        exact ih _ (stepOp_preserves_interval w op h)
  · simp only [MIN_CHECK_INTERVAL_MS, MAX_CHECK_INTERVAL_MS, NEXT_CHECK_INTERVAL_INIT]
    norm_num

set_option maxRecDepth 20000 in
/-- Witness for C9: a concrete freshly initialized transport, one write and
one rotation. -/
theorem adaptive_interval_bounded_witness :
    intervalInv (runOps
      ⟨⟨"logs", .daily, 200, "2026-10-11", "logs/2026-10-11.log", 0, false, [], 0, 0,
        NEXT_CHECK_INTERVAL_INIT⟩, [("logs/2026-10-11.log", 0)], []⟩
      [.writeOp "hello" 1791720000000, .rotateOp .period 1791720000001]) :=
  (adaptive_interval_bounded
    ⟨⟨"logs", .daily, 200, "2026-10-11", "logs/2026-10-11.log", 0, false, [], 0, 0,
      NEXT_CHECK_INTERVAL_INIT⟩, [("logs/2026-10-11.log", 0)], []⟩
    [.writeOp "hello" 1791720000000, .rotateOp .period 1791720000001]
    ⟨by decide, by decide⟩).1

lemma waitAttempts_held (now : Int) :
    ∀ (k i : Nat), i + k ≤ ROTATION_MAX_RETRIES →
      waitAttempts k i (fun _ => some now) now = false := by
  intro k
  induction k with
  | zero => intro i _; rfl
  | succ n ih =>
      intro i h
      simp only [ROTATION_MAX_RETRIES] at h
      have hfail : (tryAcquireRotationLock (some now)
          (now + (i : Int) * ROTATION_RETRY_MS)).1 = false := by
        simp only [tryAcquireRotationLock, ROTATION_RETRY_MS, ROTATION_STALE_MS]
        rw [if_neg (by omega)]
      rw [waitAttempts]
      simp only [hfail, Bool.false_eq_true, if_false]
      exact ih (i + 1) (by simp only [ROTATION_MAX_RETRIES]; omega)

/-- C6: `tryAcquireWorkerLock` on an existing lease record fails (returns
`null`, record untouched) iff the record's heartbeat age is below the 20 s
staleness threshold; on a stale record it writes (and returns) a record
with the caller's pid, the current instant as both `startedAt` and
`heartbeat`, and the prior attempt count incremented; with no prior record
the default attempt count 1 is written. -/
theorem worker_lock_heartbeat_gate (lock : WorkerLockData) (pid now attempt : Int) :
    (tryAcquireWorkerLock (some lock) pid now attempt = none ↔
      now - lock.heartbeat < WORKER_STALE_MS) ∧
    (now - lock.heartbeat < WORKER_STALE_MS →
      workerLockAfter (some lock) pid now attempt = some lock) ∧
    (WORKER_STALE_MS ≤ now - lock.heartbeat →
      tryAcquireWorkerLock (some lock) pid now attempt =
        some ⟨pid, now, now, lock.attempt + 1⟩) ∧
    tryAcquireWorkerLock none pid now 1 = some ⟨pid, now, now, 1⟩ := by
  by_cases hst : now - lock.heartbeat < WORKER_STALE_MS
  · exact ⟨by simp [tryAcquireWorkerLock, hst],
      fun _ => by simp [workerLockAfter, tryAcquireWorkerLock, hst],
      fun hge => absurd hge (not_le.mpr hst), rfl⟩
  · exact ⟨by simp [tryAcquireWorkerLock, hst],
      fun hlt => absurd hlt hst,
      fun _ => by simp [tryAcquireWorkerLock, hst], rfl⟩

/-- Witness for C6: a record stale by 25 s is taken over with attempt 3+1;
a record fresh by 1 s blocks acquisition and is left unchanged. -/
theorem worker_lock_heartbeat_gate_witness :
    tryAcquireWorkerLock (some ⟨100, 0, 0, 3⟩) 200 25000 1 =
      some ⟨200, 25000, 25000, 4⟩ ∧
    workerLockAfter (some ⟨100, 0, 4000, 3⟩) 200 5000 1 = some ⟨100, 0, 4000, 3⟩ :=
  ⟨(worker_lock_heartbeat_gate ⟨100, 0, 0, 3⟩ 200 25000 1).2.2.1 (by decide),
   (worker_lock_heartbeat_gate ⟨100, 0, 4000, 3⟩ 200 5000 1).2.1 (by decide)⟩

/-- C7: with no pre-existing lock, of two simultaneous acquisition attempts
exactly the first succeeds and it alone holds the lock afterwards; any
attempt against a fresh (non-stale) holder fails; and the loser's
`waitForRotationLock`, retried 50 times at 20 ms intervals against a holder
that keeps the lock, returns `false` (degraded mode) rather than raising. -/
theorem rotation_lock_exclusive (now : Int) :
    rotationRace none now = (true, false, some now) ∧
    (∀ m, now - m ≤ ROTATION_STALE_MS → (tryAcquireRotationLock (some m) now).1 = false) ∧
    waitForRotationLock (fun _ => some now) now = false := by
  have e2 : ∀ m, now - m ≤ ROTATION_STALE_MS →
      tryAcquireRotationLock (some m) now = (false, some m) := by
    intro m hm
    simp only [tryAcquireRotationLock]
    rw [if_neg (not_lt.mpr hm)]
  refine ⟨?_, fun m hm => by rw [e2 m hm], ?_⟩
  · have e1 : tryAcquireRotationLock none now = (true, some now) := rfl
    simp [rotationRace, e1, e2 now (by simp only [ROTATION_STALE_MS]; omega)]
  · exact waitAttempts_held now ROTATION_MAX_RETRIES 0 (by omega)

/-- Witness for C7 at a concrete instant with a concrete fresh holder. -/
theorem rotation_lock_exclusive_witness :
    rotationRace none 1000 = (true, false, some 1000) ∧
    (tryAcquireRotationLock (some 500) 1000).1 = false :=
  ⟨(rotation_lock_exclusive 1000).1, (rotation_lock_exclusive 1000).2.1 500 (by decide)⟩

lemma charsVal_append (xs : List Char) (c : Char) :
    charsVal (xs ++ [c]) = charsVal xs * 10 + digitVal c := by
  simp only [charsVal, List.foldl_append, List.foldl_cons, List.foldl_nil]

lemma intToChars_decode : ∀ (fuel : Nat) (n : Int), 0 ≤ n → n < 10 ^ fuel →
    charsVal (intToChars fuel n) = n := by
  intro fuel
  induction fuel with
  | zero =>
      intro n h0 h1
      simp only [pow_zero] at h1
      have hn : n = 0 := by omega
      subst hn
      rfl
  | succ m ih =>
      intro n h0 h1
      rw [intToChars]
      by_cases hsm : n < 10
      · rw [if_pos hsm]
        have hd := digitChar_spec n h0 (by omega)
        simp only [charsVal, List.foldl_cons, List.foldl_nil, hd.2]
        omega
      · rw [if_neg hsm, charsVal_append]
        have hrec : charsVal (intToChars m (n / 10)) = n / 10 := by
          apply ih (n / 10) (by omega)
          have hps : (10 : Int) ^ (m + 1) = 10 ^ m * 10 := by ring
          rw [hps] at h1
          generalize hQ : (10 : Int) ^ m = Q at h1 ⊢
          omega
        rw [hrec, (digitChar_spec (n % 10) (by omega) (by omega)).2]
        omega

lemma natStr_val (n : Nat) : charsVal (natStr n).data = (n : Int) := by
  have hb : (n : Int) < 10 ^ (n + 1) := by
    have h1 : n < 10 ^ n := Nat.lt_pow_self (by norm_num) n
    have h2 : 10 ^ n ≤ 10 ^ (n + 1) := Nat.pow_le_pow_right (by norm_num) (by omega)
    exact_mod_cast lt_of_lt_of_le h1 h2
  exact intToChars_decode (n + 1) n (by exact_mod_cast Nat.zero_le n) hb

lemma natStr_inj {m n : Nat} (h : natStr m = natStr n) : m = n := by
  have hm := natStr_val m
  have hn := natStr_val n
  rw [h] at hm
  have : (m : Int) = n := by rw [← hm, ← hn]
  exact_mod_cast this

lemma archiveCandidate_zero_ne (p : String) (k : Nat) :
    archiveCandidate p 0 ≠ archiveCandidate p (k + 1) := by
  intro h
  have hd := congrArg String.data h
  simp only [archiveCandidate, getArchiveFilename, String.data_append,
    List.append_assoc] at hd
  have h1 := List.append_cancel_left hd
  have h9 := congrArg (List.take 9) h1
  have htl : ("-archive-".data ++ ((natStr (k + 1)).data ++ ".tar.gz".data)).take 9 =
      "-archive-".data := List.take_left' (by decide)
  rw [htl] at h9
  exact absurd h9 (by decide)

lemma archiveCandidate_inj (p : String) : ∀ j k : Nat,
    archiveCandidate p j = archiveCandidate p k → j = k := by
  intro j k h
  cases j with
  | zero =>
      cases k with
      | zero => rfl
      | succ k => exact absurd h (archiveCandidate_zero_ne p k)
  | succ j =>
      cases k with
      | zero => exact absurd h.symm (archiveCandidate_zero_ne p j)
      | succ k =>
          have hd := congrArg String.data h
          simp only [archiveCandidate, String.data_append, List.append_assoc] at hd
          have h1 := List.append_cancel_left hd
          have h2 := List.append_cancel_left h1
          have h3 := List.append_cancel_right h2
          have h4 : natStr (j + 1) = natStr (k + 1) := congrArg String.mk h3
          have := natStr_inj h4
          omega

lemma exists_free_candidate (existing : List String) (p : String) :
    ∃ j, j ≤ existing.length ∧ archiveCandidate p j ∉ existing := by
  by_contra hall
  push_neg at hall
  have hinj : Set.InjOn (archiveCandidate p) ↑(Finset.range (existing.length + 1)) :=
    fun a _ b _ h => archiveCandidate_inj p a b h
  have hsub : (Finset.range (existing.length + 1)).image (archiveCandidate p) ⊆
      existing.toFinset := by
    intro x hx
    simp only [Finset.mem_image, Finset.mem_range] at hx
    obtain ⟨j, hj, rfl⟩ := hx
    simpa using hall j (by omega)
  have hcard := Finset.card_le_card hsub
  rw [Finset.card_image_of_injOn hinj, Finset.card_range] at hcard
  have := existing.toFinset_card_le
  omega

lemma findFreeArchiveName_spec (existing : List String) (p : String) :
    ∀ (fuel c : Nat), (∃ j, j < fuel ∧ archiveCandidate p (c + j) ∉ existing) →
      ∃ k, c ≤ k ∧ findFreeArchiveName existing p fuel c = archiveCandidate p k ∧
        archiveCandidate p k ∉ existing ∧
        ∀ i, c ≤ i → i < k → archiveCandidate p i ∈ existing := by
  intro fuel
  induction fuel with
  | zero =>
      rintro c ⟨j, hj, -⟩
      omega
  | succ m ih =>
      rintro c ⟨j, hj, hfree⟩
      rw [findFreeArchiveName]
      by_cases hc : archiveCandidate p c ∈ existing
      · rw [if_pos hc]
        have hj0 : j ≠ 0 := by
          rintro rfl
          rw [Nat.add_zero] at hfree
          exact hfree hc
        obtain ⟨k, hk1, hk2, hk3, hk4⟩ := ih (c + 1) ⟨j - 1, by omega, by
          have he : c + 1 + (j - 1) = c + j := by omega
          rw [he]
          exact hfree⟩
        refine ⟨k, by omega, hk2, hk3, fun i hi1 hi2 => ?_⟩
        rcases Nat.eq_or_lt_of_le hi1 with he | hlt
        · rw [← he]; exact hc
        · exact hk4 i (by omega) hi2
      · rw [if_neg hc]
        exact ⟨c, Nat.le_refl c, rfl, hc, fun i hi1 hi2 => absurd hi1 (by omega)⟩

lemma archiveNameFor_spec (existing : List String) (p : String) :
    ∃ k, archiveNameFor existing p = archiveCandidate p k ∧
      archiveCandidate p k ∉ existing ∧
      ∀ i, i < k → archiveCandidate p i ∈ existing := by
  obtain ⟨j, hj, hfree⟩ := exists_free_candidate existing p
  obtain ⟨k, -, h2, h3, h4⟩ := findFreeArchiveName_spec existing p
    (existing.length + 1) 0 ⟨j, by omega, by simpa using hfree⟩
  exact ⟨k, h2, h3, fun i hi => h4 i (Nat.zero_le i) hi⟩

lemma mem_dedupJS : ∀ (l : List String) (x : String), x ∈ dedupJS l ↔ x ∈ l := by
  intro l
  induction l with
  | nil => intro x; exact Iff.rfl
  | cons y ys ih =>
      intro x
      rw [dedupJS]
      by_cases hy : y ∈ dedupJS ys
      · rw [if_pos hy]
        simp only [List.mem_cons, ih]
        constructor
        · exact Or.inr
        · rintro (rfl | h)
          · exact (ih x).mp hy
          · exact h
      · rw [if_neg hy]
        simp only [List.mem_cons, ih]

lemma nodup_dedupJS : ∀ l : List String, (dedupJS l).Nodup := by
  intro l
  induction l with
  | nil => exact List.nodup_nil
  | cons y ys ih =>
      rw [dedupJS]
      by_cases hy : y ∈ dedupJS ys
      · rw [if_pos hy]; exact ih
      · rw [if_neg hy]; exact List.nodup_cons.mpr ⟨hy, ih⟩

lemma insertAsc_perm (x : String) : ∀ l : List String,
    List.Perm (insertAsc x l) (x :: l) := by
  intro l
  induction l with
  | nil => exact List.Perm.refl _
  | cons y ys ih =>
      rw [insertAsc]
      by_cases hc : strLt x y = true
      · rw [if_pos hc]
      · rw [if_neg hc]
        exact (ih.cons y).trans (List.Perm.swap x y ys)

lemma sortJS_perm (l : List String) : List.Perm (sortJS l) l := by
  have key : ∀ (l acc : List String),
      List.Perm (l.foldl (fun a x => insertAsc x a) acc) (l ++ acc) := by
    intro l
    induction l with
    | nil => intro acc; exact List.Perm.refl _
    | cons x xs ih =>
        intro acc
        simp only [List.foldl_cons, List.cons_append]
        exact (ih (insertAsc x acc)).trans
          ((List.Perm.append_left xs (insertAsc_perm x acc)).trans List.perm_middle)
  simpa [sortJS] using key l []

lemma archiveLoop_spec (files : List String) (freq : ArchiveFrequency) :
    ∀ (ps arch : List String),
      (∀ p ∈ ps, files.filter (fun f => getFilePeriod f freq = some p) ≠ []) →
      (archiveLoop files freq ps arch).1.map ArchiveBundle.period = ps ∧
      (∀ b ∈ (archiveLoop files freq ps arch).1,
        b.files = files.filter (fun f => getFilePeriod f freq = some b.period)) ∧
      (∀ f, f ∈ (archiveLoop files freq ps arch).2 ↔
        ∃ p ∈ ps, f ∈ files.filter (fun g => getFilePeriod g freq = some p)) ∧
      namesSeq arch (archiveLoop files freq ps arch).1 = true := by
  intro ps
  induction ps with
  | nil =>
      intro arch _
      refine ⟨rfl, ?_, ?_, rfl⟩
      · intro b hb
        simp [archiveLoop] at hb
      · intro f
        simp [archiveLoop]
  | cons p rest ih =>
      intro arch hne
      have hpne : files.filter (fun f => getFilePeriod f freq = some p) ≠ [] :=
        hne p (List.mem_cons_self _ _)
      have hstep1 : (archiveLoop files freq (p :: rest) arch).1 =
          (⟨p, archiveNameFor arch p,
              files.filter (fun f => getFilePeriod f freq = some p)⟩ : ArchiveBundle) ::
            (archiveLoop files freq rest (archiveNameFor arch p :: arch)).1 := by
        rw [archiveLoop, if_neg hpne]
      have hstep2 : (archiveLoop files freq (p :: rest) arch).2 =
          files.filter (fun f => getFilePeriod f freq = some p) ++
            (archiveLoop files freq rest (archiveNameFor arch p :: arch)).2 := by
        rw [archiveLoop, if_neg hpne]
      obtain ⟨ih1, ih2, ih3, ih4⟩ :=
        ih (archiveNameFor arch p :: arch) (fun q hq => hne q (List.mem_cons_of_mem _ hq))
      refine ⟨?_, ?_, ?_, ?_⟩
      · rw [hstep1]
        simp only [List.map_cons, ih1]
      · intro b hb
        rw [hstep1] at hb
        rcases List.mem_cons.mp hb with rfl | hb'
        · rfl
        · exact ih2 b hb'
      · intro f
        rw [hstep2, List.mem_append, ih3 f]
        constructor
        · rintro (hf | ⟨q, hq, hfq⟩)
          · exact ⟨p, List.mem_cons_self _ _, hf⟩
          · exact ⟨q, List.mem_cons_of_mem _ hq, hfq⟩
        · rintro ⟨q, hq, hfq⟩
          rcases List.mem_cons.mp hq with rfl | hq'
          · exact Or.inl hfq
          · exact Or.inr ⟨q, hq', hfq⟩
      · rw [hstep1, namesSeq, Bool.and_eq_true]
        exact ⟨decide_eq_true rfl, ih4⟩

lemma count_one_of_nodup {l : List String} (hd : l.Nodup) {a : String} (ha : a ∈ l) :
    l.count a = 1 := List.count_eq_one_of_mem hd ha

/-- C2: one archive run never deletes, nor includes in any bundle, a log
file keyed to the current archive period; every closed period with at
least one parseable `.log` file has all its source files deleted and
exactly one bundle created; the bundle names follow the collision search
step by step; and the collision search returns the base
`<period>-archive.tar.gz` name when free, otherwise the first
`<period>-archive-N.tar.gz` (`N ≥ 1`) whose name is free, every earlier
candidate being taken. -/
theorem archive_worker_run (logFiles archFiles : List String)
    (freq : ArchiveFrequency) (now : Int) :
    (∀ f, getFilePeriod f freq = some (getCurrentArchivePeriod freq now) →
      f ∉ (runArchiveWorker logFiles archFiles freq now).2 ∧
      ∀ b ∈ (runArchiveWorker logFiles archFiles freq now).1, f ∉ b.files) ∧
    (∀ p, p ≠ getCurrentArchivePeriod freq now →
      (∃ f ∈ logFiles, strEndsWith f ".log" = true ∧ getFilePeriod f freq = some p) →
      ((∀ f ∈ logFiles, strEndsWith f ".log" = true → getFilePeriod f freq = some p →
          f ∈ (runArchiveWorker logFiles archFiles freq now).2) ∧
        ((runArchiveWorker logFiles archFiles freq now).1.map
            ArchiveBundle.period).count p = 1)) ∧
    namesSeq archFiles (runArchiveWorker logFiles archFiles freq now).1 = true ∧
    (∀ existing q, archiveNameFor existing q ∉ existing ∧
      (getArchiveFilename q ∉ existing →
        archiveNameFor existing q = getArchiveFilename q) ∧
      (getArchiveFilename q ∈ existing → ∃ N, 1 ≤ N ∧
        archiveNameFor existing q = archiveCandidate q N ∧
        ∀ j, j < N → archiveCandidate q j ∈ existing)) := by
  set files := logFiles.filter (fun f => strEndsWith f ".log") with hfiles
  set cur := getCurrentArchivePeriod freq now with hcur
  set ps := sortJS (dedupJS ((files.filterMap (fun f => getFilePeriod f freq)).filter
    (fun p => p ≠ cur))) with hpsdef
  have hrun : runArchiveWorker logFiles archFiles freq now =
      archiveLoop files freq ps archFiles := rfl
  have hmem_ps : ∀ p, p ∈ ps ↔ (p ≠ cur ∧ ∃ f ∈ files, getFilePeriod f freq = some p) := by
    intro p
    rw [hpsdef, (sortJS_perm _).mem_iff, mem_dedupJS, List.mem_filter]
    constructor
    · rintro ⟨h1, h2⟩
      exact ⟨by simpa using h2, List.mem_filterMap.mp h1⟩
    · rintro ⟨h1, f, hf, hfp⟩
      exact ⟨List.mem_filterMap.mpr ⟨f, hf, hfp⟩, by simpa using h1⟩
  have hps_has : ∀ p ∈ ps, files.filter (fun f => getFilePeriod f freq = some p) ≠ [] := by
    intro p hp hempty
    obtain ⟨-, f, hf, hfp⟩ := (hmem_ps p).mp hp
    have hmem : f ∈ files.filter (fun f => getFilePeriod f freq = some p) :=
      List.mem_filter.mpr ⟨hf, by simp [hfp]⟩
    rw [hempty] at hmem
    cases hmem
  have hnodup : ps.Nodup := by
    rw [hpsdef]
    exact ((sortJS_perm _).nodup_iff).mpr (nodup_dedupJS _)
  obtain ⟨hL1, hL2, hL3, hL4⟩ := archiveLoop_spec files freq ps archFiles hps_has
  refine ⟨?_, ?_, ?_, ?_⟩
  · intro f hf
    rw [hrun]
    constructor
    · intro hdel
      obtain ⟨q, hq, hfq⟩ := (hL3 f).mp hdel
      have hq2 : getFilePeriod f freq = some q := by
        simpa using (List.mem_filter.mp hfq).2
      rw [hf] at hq2
      injection hq2 with he
      obtain ⟨hne, -⟩ := (hmem_ps q).mp hq
      exact hne he.symm
    · intro b hb hfb
      rw [hL2 b hb] at hfb
      have hq2 : getFilePeriod f freq = some b.period := by
        simpa using (List.mem_filter.mp hfb).2
      rw [hf] at hq2
      injection hq2 with he
      have hbp : b.period ∈ ps := by
        rw [← hL1]
        exact List.mem_map.mpr ⟨b, hb, rfl⟩
      obtain ⟨hne, -⟩ := (hmem_ps _).mp hbp
      exact hne he.symm
  · intro p hpcur hex
    obtain ⟨f0, hf0, hf0e, hf0p⟩ := hex
    have hpps : p ∈ ps := (hmem_ps p).mpr
      ⟨hpcur, f0, List.mem_filter.mpr ⟨hf0, hf0e⟩, hf0p⟩
    rw [hrun]
    constructor
    · intro f hf hfe hfp
      exact (hL3 f).mpr
        ⟨p, hpps, List.mem_filter.mpr ⟨List.mem_filter.mpr ⟨hf, hfe⟩, by simp [hfp]⟩⟩
    · rw [hL1]
      exact count_one_of_nodup hnodup hpps
  · rw [hrun]
    exact hL4
  · intro existing q
    obtain ⟨k, hk1, hk2, hk3⟩ := archiveNameFor_spec existing q
    refine ⟨by rw [hk1]; exact hk2, ?_, ?_⟩
    · intro hbase
      cases k with
      | zero => rw [hk1]; rfl
      | succ m => exact absurd (hk3 0 (Nat.succ_pos m)) hbase
    · intro hbase
      cases k with
      | zero => exact absurd hbase hk2
      | succ m => exact ⟨m + 1, by omega, hk1, hk3⟩

set_option maxRecDepth 20000 in
/-- Witness for C2: daily cadence on 2026-10-11; the two 2026-10-10 files
are bundled once (base name taken, so `-archive-1` is chosen) and deleted,
while the current day's file survives. -/
theorem archive_worker_run_witness :
    ("2026-10-10.log" ∈ (runArchiveWorker
        ["2026-10-10.log", "2026-10-10~12-00-00~123.log", "2026-10-11.log", "notes.txt"]
        ["2026-10-10-archive.tar.gz"] .daily 1791720000000).2 ∧
      ((runArchiveWorker
        ["2026-10-10.log", "2026-10-10~12-00-00~123.log", "2026-10-11.log", "notes.txt"]
        ["2026-10-10-archive.tar.gz"] .daily 1791720000000).1.map
          ArchiveBundle.period).count "2026-10-10" = 1) ∧
    "2026-10-11.log" ∉ (runArchiveWorker
        ["2026-10-10.log", "2026-10-10~12-00-00~123.log", "2026-10-11.log", "notes.txt"]
        ["2026-10-10-archive.tar.gz"] .daily 1791720000000).2 ∧
    namesSeq ["2026-10-10-archive.tar.gz"] (runArchiveWorker
        ["2026-10-10.log", "2026-10-10~12-00-00~123.log", "2026-10-11.log", "notes.txt"]
        ["2026-10-10-archive.tar.gz"] .daily 1791720000000).1 = true :=
  ⟨⟨((archive_worker_run
        ["2026-10-10.log", "2026-10-10~12-00-00~123.log", "2026-10-11.log", "notes.txt"]
        ["2026-10-10-archive.tar.gz"] .daily 1791720000000).2.1 "2026-10-10"
        (by decide) ⟨"2026-10-10.log", by decide, by decide, by decide⟩).1
      "2026-10-10.log" (by decide) (by decide) (by decide),
    ((archive_worker_run
        ["2026-10-10.log", "2026-10-10~12-00-00~123.log", "2026-10-11.log", "notes.txt"]
        ["2026-10-10-archive.tar.gz"] .daily 1791720000000).2.1 "2026-10-10"
        (by decide) ⟨"2026-10-10.log", by decide, by decide, by decide⟩).2⟩,
   ((archive_worker_run
        ["2026-10-10.log", "2026-10-10~12-00-00~123.log", "2026-10-11.log", "notes.txt"]
        ["2026-10-10-archive.tar.gz"] .daily 1791720000000).1 "2026-10-11.log"
        (by decide)).1,
   (archive_worker_run
        ["2026-10-10.log", "2026-10-10~12-00-00~123.log", "2026-10-11.log", "notes.txt"]
        ["2026-10-10-archive.tar.gz"] .daily 1791720000000).2.2.1⟩

end PinoFileTransport
